import Mathlib

/-!
# Verification of the figma-to-ios BFS workflow tool

A shallow embedding of src/skills/figma-to-ios-spec/scripts/figma_ios_bfs_tool.py
in Lean 4, together with theorems settling the frozen claims about the tool.

Modelling conventions:
* JSON values are modelled by the inductive type J below.  JSON numbers are
  modelled as rationals (the script only ever coerces them with float() and the
  verified claims only exercise exactly-representable values); the Python
  int/float distinction in reprs is therefore not modelled.
* A raw Figma node (a JSON object) is modelled as a RawNode carrying its
  non-children fields as an association list plus the list of its object
  children.  The script ignores non-object entries of a "children" array and
  treats a missing or non-list "children" value like an empty one, so only
  the object children are kept in the model.
* Python dictionaries are modelled as association lists in insertion order,
  with dict assignment replacing the value in place for an existing key and
  appending otherwise (objSet below), matching CPython semantics.
* stderr output is modelled explicitly where a claim depends on it: the
  indexing pass threads the list of emitted warning lines through visit.
-/

/-- First-match association-list lookup (Python dict access; keys are unique
in every dict the script builds, and CPython's dict preserves insertion
order, which the association list mirrors). -/
def alookup {α : Type} : List (String × α) → String → Option α
  | [], _ => none
  | (k', v) :: rest, k => if k' = k then some v else alookup rest k

/-- `k in d` for an association list. -/
def ahas {α : Type} (m : List (String × α)) (k : String) : Bool :=
  (alookup m k).isSome

/-- Python dict assignment d[k] = v on an association list: replaces the
value in place for an existing key, appends otherwise (CPython keeps the
key's position on overwrite and appends new keys). -/
def aset {α : Type} (m : List (String × α)) (k : String) (v : α) : List (String × α) :=
  if ahas m k then m.map (fun kv => if kv.1 = k then (k, v) else kv)
  else m ++ [(k, v)]

theorem alookup_map_set_self {α : Type} {m : List (String × α)} {k : String} {v : α}
    (hin : ahas m k = true) :
    alookup (m.map (fun kv => if kv.1 = k then (k, v) else kv)) k = some v := by
  induction m with
  | nil => simp [ahas, alookup] at hin
  | cons kv rest ih =>
    by_cases hk : kv.1 = k
    · rw [List.map_cons, if_pos hk]
      simp [alookup]
    · rw [List.map_cons, if_neg hk]
      simp only [alookup, if_neg hk]
      exact ih (by simpa [ahas, alookup, hk] using hin)

theorem alookup_map_set_ne {α : Type} {m : List (String × α)} {k k' : String} {v : α}
    (h : k' ≠ k) :
    alookup (m.map (fun kv => if kv.1 = k then (k, v) else kv)) k' = alookup m k' := by
  induction m with
  | nil => rfl
  | cons kv rest ih =>
    by_cases hk : kv.1 = k
    · rw [List.map_cons, if_pos hk]
      simp only [alookup, if_neg (fun e : k = k' => h e.symm),
        if_neg (fun e : kv.1 = k' => h (hk ▸ e).symm)]
      exact ih
    · rw [List.map_cons, if_neg hk]
      simp only [alookup]
      by_cases hk2 : kv.1 = k'
      · rw [if_pos hk2, if_pos hk2]
      · rw [if_neg hk2, if_neg hk2]
        exact ih

theorem alookup_append_single_self {α : Type} {m : List (String × α)} {k : String} {v : α}
    (hnin : ahas m k = false) :
    alookup (m ++ [(k, v)]) k = some v := by
  induction m with
  | nil => simp [alookup]
  | cons kv rest ih =>
    by_cases hk : kv.1 = k
    · simp [ahas, alookup, hk] at hnin
    · simp only [List.cons_append, alookup, if_neg hk]
      exact ih (by simpa [ahas, alookup, hk] using hnin)

theorem alookup_append_single_ne {α : Type} {m : List (String × α)} {k k' : String} {v : α}
    (h : k' ≠ k) :
    alookup (m ++ [(k, v)]) k' = alookup m k' := by
  induction m with
  | nil =>
    simp only [List.nil_append, alookup]
    rw [if_neg (fun e : k = k' => h e.symm)]
  | cons kv rest ih =>
    simp only [List.cons_append, alookup]
    by_cases hk2 : kv.1 = k'
    · rw [if_pos hk2, if_pos hk2]
    · rw [if_neg hk2, if_neg hk2]
      exact ih

theorem alookup_aset_self {α : Type} (m : List (String × α)) (k : String) (v : α) :
    alookup (aset m k v) k = some v := by
  unfold aset
  by_cases hin : ahas m k = true
  · rw [if_pos hin]
    exact alookup_map_set_self hin
  · rw [if_neg hin]
    exact alookup_append_single_self (Bool.not_eq_true _ ▸ hin)

theorem alookup_aset_ne {α : Type} (m : List (String × α)) (k k' : String) (v : α)
    (h : k' ≠ k) : alookup (aset m k v) k' = alookup m k' := by
  unfold aset
  by_cases hin : ahas m k = true
  · rw [if_pos hin]
    exact alookup_map_set_ne h
  · rw [if_neg hin]
    exact alookup_append_single_ne h

/-! Character-level string helpers modelling Python's str methods on the
ASCII data the script manipulates.  (Core's String functions are bytewise
position-based and do not reduce inside the kernel, so the model uses these
plain structural definitions instead.) -/

/-- Python s.upper() (ASCII). -/
def pyUpper (s : String) : String :=
  String.mk (s.data.map Char.toUpper)

/-- Python s.lower() (ASCII). -/
def pyLower (s : String) : String :=
  String.mk (s.data.map Char.toLower)

/-- Python s.strip(). -/
def pyTrim (s : String) : String :=
  String.mk (((s.data.dropWhile Char.isWhitespace).reverse.dropWhile Char.isWhitespace).reverse)

/-- Python s.split(sep) for a one-character separator (empty parts kept). -/
def pySplitCharAux (sep : Char) : List Char → List Char → List String
  | [], acc => [String.mk acc.reverse]
  | c :: cs, acc =>
    if c = sep then String.mk acc.reverse :: pySplitCharAux sep cs []
    else pySplitCharAux sep cs (c :: acc)

/-- Python s.split(sep) for a one-character separator. -/
def pySplitChar (sep : Char) (s : String) : List String :=
  pySplitCharAux sep s.data []

/-- Whether pre is a prefix of cs. -/
def isPreChars : List Char → List Char → Bool
  | [], _ => true
  | _ :: _, [] => false
  | a :: as, b :: bs => a == b && isPreChars as bs

/-- Python s.startswith(pre). -/
def pyStarts (s pre : String) : Bool :=
  isPreChars pre.data s.data

/-- Python s[n:] (by characters). -/
def pyDrop (s : String) (n : Nat) : String :=
  String.mk (s.data.drop n)

/-- Python s[:n] (by characters). -/
def pyTake (s : String) (n : Nat) : String :=
  String.mk (s.data.take n)

/-- Python sep.join(parts). -/
def pyJoin (sep : String) : List String → String
  | [] => ""
  | [x] => x
  | x :: xs => x ++ sep ++ pyJoin sep xs

/-- Python `c in s` for a single character. -/
def pyContainsChar (s : String) (c : Char) : Bool :=
  s.data.contains c

/-- Python s.replace(old, new) for one-character old/new. -/
def pyReplaceChar (s : String) (old new : Char) : String :=
  String.mk (s.data.map (fun c => if c = old then new else c))

/-- An unnormalized rational number modelling a Python float exactly
(numerator over positive denominator; all values the script computes are
exact in binary floating point and in particular the verified claims only
exercise values where rational and float arithmetic agree).  A plain
structural representation is used so that every arithmetic step reduces
inside the kernel. -/
structure Q where
  num : Int
  den : Nat
deriving Repr, DecidableEq

instance (n : Nat) : OfNat Q n := ⟨⟨n, 1⟩⟩

instance : Neg Q := ⟨fun a => ⟨-a.num, a.den⟩⟩

instance : Add Q := ⟨fun a b => ⟨a.num * b.den + b.num * a.den, a.den * b.den⟩⟩

instance : Sub Q := ⟨fun a b => ⟨a.num * b.den - b.num * a.den, a.den * b.den⟩⟩

instance : Mul Q := ⟨fun a b => ⟨a.num * b.num, a.den * b.den⟩⟩

instance : Div Q := ⟨fun a b =>
  if b.num ≥ 0 then ⟨a.num * b.den, a.den * b.num.toNat⟩
  else ⟨-(a.num * b.den), a.den * (-b.num).toNat⟩⟩

/-- Python float equality (value equality of the rationals). -/
def Q.eqv (a b : Q) : Bool :=
  a.num * b.den = b.num * a.den

/-- Python float.is_integer(). -/
def Q.isInt (a : Q) : Bool :=
  a.num % (a.den : Int) = 0

/-- Python int(f) for an integral float (exact division). -/
def Q.toInt (a : Q) : Int :=
  a.num / (a.den : Int)

/-- A JSON value, as produced by Python's json.load. -/
inductive J where
  | null
  | jbool (b : Bool)
  | num (q : Q)
  | str (s : String)
  | arr (elems : List J)
  | obj (kvs : List (String × J))
deriving Repr

/-- Python truthiness (bool(v)) of a JSON value. -/
def J.truthy : J → Bool
  | .null => false
  | .jbool b => b
  | .num q => !q.eqv 0
  | .str s => s != ""
  | .arr es => !es.isEmpty
  | .obj kvs => !kvs.isEmpty

/-- dict.get(k) on a JSON value: some v for an object containing k, else none. -/
def J.get : J → String → Option J
  | .obj kvs, k => alookup kvs k
  | _, _ => none

/-- dict.get(k, default). -/
def J.getD (j : J) (k : String) (d : J) : J :=
  (j.get k).getD d

/-- isinstance(v, str): the underlying string, if v is a string. -/
def J.asStr : J → Option String
  | .str s => some s
  | _ => none

/-- is_number(v) from the script: an int or float and not a bool. -/
def J.asNum : J → Option Q
  | .num q => some q
  | _ => none

/-- isinstance(v, dict). -/
def J.isObj : J → Bool
  | .obj _ => true
  | _ => false

/-- isinstance(v, dict): the key/value pairs, if v is an object. -/
def J.asObj : J → Option (List (String × J))
  | .obj kvs => some kvs
  | _ => none

/-- isinstance(v, list): the elements, if v is an array. -/
def J.asArr : J → Option (List J)
  | .arr es => some es
  | _ => none

/-- Python str(v).  Exact for strings, bools and None; numeric and composite
values get a stand-in repr (no claim depends on those cases, they are only ever
compared against all-uppercase words such as "TEXT", which no Python list/dict
repr can equal). -/
def J.pyStr : J → String
  | .null => "None"
  | .jbool b => if b then "True" else "False"
  | .num q => if q.isInt then toString q.toInt else toString q.num ++ "/" ++ toString q.den
  | .str s => s
  | .arr _ => "[list]"
  | .obj _ => "\x7bdict\x7d"

/-- `v is False` for a JSON value (identity with the Python False literal). -/
def J.isFalseLit : J → Bool
  | .jbool false => true
  | _ => false

/-- `v is True` for a JSON value (identity with the Python True literal). -/
def J.isTrueLit : J → Bool
  | .jbool true => true
  | _ => false

/-- Python `a or b` on optional JSON values, where none stands for Python None:
the first operand if it is present and truthy, else the second. -/
def jOr (a b : Option J) : Option J :=
  match a with
  | some v => if v.truthy then some v else b
  | none => b

/-- Python dict assignment d[k] = v on an association list (for JSON
values): replaces the value in place for an existing key, appends otherwise. -/
def objSet (kvs : List (String × J)) (k : String) (v : J) : List (String × J) :=
  aset kvs k v

/-- `k in d` for a JSON object's key/value list. -/
def objHas (kvs : List (String × J)) (k : String) : Bool :=
  ahas kvs k

/-- A raw Figma node: its non-children JSON fields plus its object children. -/
inductive RawNode where
  | node (fields : List (String × J)) (children : List RawNode)

/-- node.get(k) for a raw node (k ≠ "children"). -/
def RawNode.get : RawNode → String → Option J
  | .node fields _, k => alookup fields k

/-- node.get(k, default) for a raw node. -/
def RawNode.getD (n : RawNode) (k : String) (d : J) : J :=
  (n.get k).getD d

/-- The object children of a raw node (node.get("children") restricted to
dict entries; a missing or non-list value behaves like an empty list). -/
def RawNode.children : RawNode → List RawNode
  | .node _ cs => cs

/-- name_tokens, step 1: re.sub(r"([a-z0-9])([A-Z])", r"\1 \2", s) —
insert a space between an ASCII lowercase/digit character and an ASCII
uppercase character. -/
def camelSplitChars : List Char → List Char
  | [] => []
  | [c] => [c]
  | a :: b :: rest =>
    if (a.isLower || (a.isDigit && a.val < 128)) && b.isUpper then
      a :: ' ' :: camelSplitChars (b :: rest)
    else
      a :: camelSplitChars (b :: rest)

/-- name_tokens, step 3: re.findall(r"[a-z0-9]+", s) — the maximal runs of
ASCII lowercase letters and digits. -/
def alnumRuns : List Char → List Char → List String
  | [], acc => if acc.isEmpty then [] else [String.mk acc.reverse]
  | c :: cs, acc =>
    if c.isLower || c.isDigit then alnumRuns cs (c :: acc)
    else if acc.isEmpty then alnumRuns cs []
    else String.mk acc.reverse :: alnumRuns cs []

/-- name_tokens(raw): lower-cased word tokens of a node name, split on
case and separator boundaries. -/
def nameTokens (raw : Option J) : List String :=
  match raw with
  | none => []
  | some .null => []
  | some v =>
    let s := v.pyStr
    let s := String.mk (camelSplitChars s.data)
    let s := pyReplaceChar (pyReplaceChar (pyReplaceChar s '/' ' ') '-' ' ') '_' ' '
    alnumRuns (pyLower s).data []

/-- pick_first_visible_paint: the first entry of a paint list that is an
object, is not explicitly visible=False, and whose type matches. -/
def pickFirstVisiblePaint (paints : Option J) (paintType : String) : Option J :=
  match paints with
  | some (.arr ps) =>
    let want := pyUpper paintType
    ps.find? (fun p =>
      p.isObj &&
      !(p.getD "visible" (J.jbool true)).isFalseLit &&
      (pyUpper (p.getD "type" (J.str "")).pyStr == want))
  | _ => none

/-- color_spec: extract the token / fallback hex of a color object. -/
def colorSpec (colorObj : Option J) : Option J :=
  match colorObj with
  | some (J.obj kvs) =>
    let token := (J.obj kvs).get "colorVariableName"
    let hexRGBA := (J.obj kvs).get "hexRGBA"
    let out : List (String × J) := []
    let out := match token with
      | some (.str t) => if pyTrim t ≠ "" then objSet out "token" (J.str (pyTrim t)) else out
      | _ => out
    let out := match hexRGBA with
      | some (.str h) => if pyTrim h ≠ "" then objSet out "fallbackHex" (J.str (pyTrim h)) else out
      | _ => out
    if out.isEmpty then none else some (J.obj out)
  | _ => none

/-- extract_solid_fill_color. -/
def extractSolidFillColor (node : RawNode) : Option J :=
  match pickFirstVisiblePaint (node.get "fills") "SOLID" with
  | none => none
  | some paint =>
    if !paint.truthy then none
    else match colorSpec (paint.get "color") with
      | none => none
      | some c =>
        let out := objSet [] "color" c
        let out := match (paint.getD "opacity" J.null).asNum with
          | some q => if !q.eqv 1 then objSet out "opacity" (J.num q) else out
          | none => out
        some (J.obj out)

/-- extract_solid_stroke. -/
def extractSolidStroke (node : RawNode) : Option J :=
  match pickFirstVisiblePaint (node.get "strokes") "SOLID" with
  | none => none
  | some paint =>
    if !paint.truthy then none
    else match colorSpec (paint.get "color") with
      | none => none
      | some c =>
        let out := objSet [] "color" c
        let weight : Option J := match node.get "strokeWeight" with
          | some v => some v
          | none => node.get "strokeWidth"
        let out := match weight with
          | some w =>
            match w.asNum with
            | some q => if !q.eqv 0 then objSet out "width" (J.num q) else out
            | none => out
          | none => out
        let out := match node.get "strokeAlign" with
          | some (.str a) => if a ≠ "" then objSet out "align" (J.str a) else out
          | _ => out
        let out := match (paint.getD "opacity" J.null).asNum with
          | some q => if !q.eqv 1 then objSet out "opacity" (J.num q) else out
          | none => out
        some (J.obj out)

/-- extract_image. -/
def extractImage (node : RawNode) : Option J :=
  let paint := pickFirstVisiblePaint (node.get "fills") "IMAGE"
  let imageHash : Option J := match paint with
    | some p => if p.isObj then jOr (p.get "imageHash") (p.get "imageRef") else none
    | none => none
  let imageHash := jOr (jOr imageHash (node.get "imageHash")) (node.get "imageRef")
  let paintFalsy : Bool := match paint with
    | some p => !p.truthy
    | none => true
  let hashFalsy : Bool := match imageHash with
    | some v => !v.truthy
    | none => true
  if paintFalsy && hashFalsy then none
  else
    let out : List (String × J) := []
    let out := match imageHash with
      | some (.str h) => if h ≠ "" then objSet out "imageHash" (J.str h) else out
      | _ => out
    let out := match paint with
      | some p =>
        if p.isObj then
          let out := match p.get "scaleMode" with
            | some (.str sm) => if sm ≠ "" then objSet out "scaleMode" (J.str sm) else out
            | _ => out
          match (p.getD "opacity" J.null).asNum with
          | some q => if !q.eqv 1 then objSet out "opacity" (J.num q) else out
          | none => out
        else out
      | none => out
    if out.isEmpty then none else some (J.obj out)

/-- extract_font. -/
def extractFont (node : RawNode) : Option J :=
  let token := jOr (node.get "textVariableName") (node.get "textStyleVariableName")
  let fallback : List (String × J) := []
  let fallback := match node.get "fontName" with
    | some (.str fn) => if pyTrim fn ≠ "" then objSet fallback "name" (J.str (pyTrim fn)) else fallback
    | _ => fallback
  let fallback := match node.get "fontSize" with
    | some (.num q) => objSet fallback "size" (J.num q)
    | _ => fallback
  let fallback := match node.get "style" with
    | some (J.obj skvs) =>
      let style := J.obj skvs
      let fallback :=
        if !objHas fallback "name" then
          match jOr (style.get "fontPostScriptName") (style.get "fontFamily") with
          | some (.str v) => if pyTrim v ≠ "" then objSet fallback "name" (J.str (pyTrim v)) else fallback
          | _ => fallback
        else fallback
      let fallback :=
        if !objHas fallback "size" then
          match (style.getD "fontSize" J.null).asNum with
          | some q => objSet fallback "size" (J.num q)
          | none => fallback
        else fallback
      match (style.getD "fontWeight" J.null).asNum with
      | some q => objSet fallback "weight" (J.num q)
      | none => fallback
    | _ => fallback
  let out : List (String × J) := []
  let out := match token with
    | some (.str t) => if pyTrim t ≠ "" then objSet out "token" (J.str (pyTrim t)) else out
    | _ => out
  let out := if !fallback.isEmpty then objSet out "fallback" (J.obj fallback) else out
  if out.isEmpty then none else some (J.obj out)

/-- extract_shadows. -/
def extractShadows (node : RawNode) : List J :=
  match node.get "effects" with
  | some (.arr effects) =>
    effects.filterMap (fun eff =>
      if !eff.isObj then none
      else if (eff.getD "visible" (J.jbool true)).isFalseLit then none
      else
        let t := pyUpper (eff.getD "type" (J.str "")).pyStr
        if t ≠ "DROP_SHADOW" ∧ t ≠ "INNER_SHADOW" then none
        else
          let shadow := objSet [] "type" (J.str t)
          let shadow := match colorSpec (eff.get "color") with
            | some c => objSet shadow "color" c
            | none => shadow
          let shadow := match eff.get "offset" with
            | some (J.obj okvs) =>
              let off := J.obj okvs
              match (off.getD "x" J.null).asNum, (off.getD "y" J.null).asNum with
              | some qx, some qy =>
                objSet shadow "offset" (J.obj (objSet (objSet [] "x" (J.num qx)) "y" (J.num qy)))
              | _, _ => shadow
            | _ => shadow
          let shadow := match (eff.getD "radius" J.null).asNum with
            | some q => objSet shadow "radius" (J.num q)
            | none => shadow
          let shadow := match (eff.getD "spread" J.null).asNum with
            | some q => objSet shadow "spread" (J.num q)
            | none => shadow
          let shadow := match (eff.getD "opacity" J.null).asNum with
            | some q => if !q.eqv 1 then objSet shadow "opacity" (J.num q) else shadow
            | none => shadow
          some (J.obj shadow))
  | _ => []

/-- node_facts(node, max_text_len): the compact "facts" projection of a raw
node.  max_text_len is an integer; a negative value disables truncation. -/
def nodeFacts (node : RawNode) (maxTextLen : Int) : J :=
  let figmaType := pyUpper (node.getD "type" (J.str "")).pyStr
  let facts := objSet [] "nameTokens" (J.arr ((nameTokens (node.get "name")).map J.str))
  let facts := objSet facts "visible" (J.jbool (node.getD "visible" (J.jbool true)).truthy)
  let facts := objSet facts "locked" (J.jbool (node.getD "locked" (J.jbool false)).truthy)
  let frame := ["x", "y", "width", "height", "rotation"].foldl (fun fr k =>
    match (node.getD k J.null).asNum with
    | some q => objSet fr k (J.num q)
    | none => fr) []
  let facts := if !frame.isEmpty then objSet facts "frame" (J.obj frame) else facts
  let layout := ["layoutMode", "layoutPositioning", "layoutSizingHorizontal",
    "layoutSizingVertical", "constraints", "layoutGrow", "layoutAlign",
    "itemSpacing", "paddingLeft", "paddingRight", "paddingTop", "paddingBottom",
    "primaryAxisAlignItems", "counterAxisAlignItems", "layoutWrap"].foldl (fun ly k =>
    match node.get k with
    | some J.null => ly
    | some v => objSet ly k v
    | none => ly) []
  let facts := if !layout.isEmpty then objSet facts "layout" (J.obj layout) else facts
  let style : List (String × J) := []
  let style := match extractSolidFillColor node with
    | some bg => objSet style "backgroundColor" bg
    | none => style
  let style := match extractSolidStroke node with
    | some st => objSet style "stroke" st
    | none => style
  let style := match (node.getD "cornerRadius" J.null).asNum with
    | some q => if !q.eqv 0 then objSet style "cornerRadius" (J.num q) else style
    | none => style
  let style := match (node.getD "opacity" J.null).asNum with
    | some q => if !q.eqv 1 then objSet style "opacity" (J.num q) else style
    | none => style
  let style := if (node.getD "clipsContent" J.null).isTrueLit then
      objSet style "clipsContent" (J.jbool true) else style
  let shadows := extractShadows node
  let style := if !shadows.isEmpty then objSet style "shadows" (J.arr shadows) else style
  let facts := if !style.isEmpty then objSet facts "style" (J.obj style) else facts
  let facts :=
    if figmaType = "TEXT" then
      let text : List (String × J) := []
      let chars := jOr (node.get "characters") (node.get "text")
      let text := match chars with
        | some (.str cs) =>
          if cs ≠ "" then
            if 0 ≤ maxTextLen ∧ maxTextLen < (cs.length : Int) then
              let text := objSet text "characters" (J.str (pyTake cs maxTextLen.toNat ++ "..."))
              objSet text "charactersTruncated" (J.jbool true)
            else objSet text "characters" (J.str cs)
          else text
        | _ => text
      let text := match extractFont node with
        | some f => objSet text "font" f
        | none => text
      let text := match extractSolidFillColor node with
        | some fill => objSet text "textColor" (fill.getD "color" J.null)
        | none => text
      if !text.isEmpty then objSet facts "text" (J.obj text) else facts
    else facts
  let facts := match extractImage node with
    | some img => objSet facts "image" img
    | none => facts
  J.obj facts

/-- A Node Record, as stored in the indexed state (index_tree builds one per
included node). -/
structure NodeRec where
  id : String
  name : String
  type : String
  parentId : Option String
  depth : Nat
  childIds : List String
  facts : J
deriving Repr

/-- The flat id -> record map built by index_tree (a Python dict in insertion
order). -/
abbrev NodeMap := List (String × NodeRec)

/-- should_include_node: include everything under the override, otherwise
follow the node's visible flag (default True). -/
def shouldIncludeNode (includeInvisible : Bool) (node : RawNode) : Bool :=
  if includeInvisible then true
  else (node.getD "visible" (J.jbool true)).truthy

/-- The node's id when it is a non-empty string (the only ids index_tree
accepts). -/
def rawId (node : RawNode) : Option String :=
  match node.get "id" with
  | some (.str s) => if s = "" then none else some s
  | _ => none

/-- The child-id list recorded for a node: ids of its object children that
pass the visibility policy and carry a non-empty string id. -/
def topChildIds (inc : Bool) (node : RawNode) : List String :=
  node.children.filterMap (fun c => if shouldIncludeNode inc c then rawId c else none)

mutual
/-- visit(node, parent_id, depth) from index_tree.  The state is the node map
together with the stderr warning lines emitted so far; the source emits no
stderr at all during indexing (in particular the duplicate-id branch returns
silently), so every branch passes the warning list through unchanged. -/
def visit (inc : Bool) (mtl : Int) : RawNode → Option String → Nat →
    NodeMap × List String → NodeMap × List String
  | .node fields cs, parentId, depth, st =>
    if !shouldIncludeNode inc (.node fields cs) then st
    else match rawId (.node fields cs) with
    | none => st
    | some nodeId =>
      if ahas st.1 nodeId then
        -- Figma ids should be unique; on a duplicate the script keeps the
        -- first occurrence and returns without recursing and without warning.
        st
      else
        let r : NodeRec := {
          id := nodeId
          name := ((RawNode.node fields cs).getD "name" (J.str "")).pyStr
          type := ((RawNode.node fields cs).getD "type" (J.str "")).pyStr
          parentId := parentId
          depth := depth
          childIds := topChildIds inc (.node fields cs)
          facts := nodeFacts (.node fields cs) mtl }
        visitList inc mtl cs (some nodeId) (depth + 1) (st.1 ++ [(nodeId, r)], st.2)

/-- The loop over children at the end of visit. -/
def visitList (inc : Bool) (mtl : Int) : List RawNode → Option String → Nat →
    NodeMap × List String → NodeMap × List String
  | [], _, _, st => st
  | c :: rest, parentId, depth, st =>
    visitList inc mtl rest parentId depth (visit inc mtl c parentId depth st)
end

/-- index_tree: root id plus the flat node map (and the stderr lines emitted
while indexing); fails when the root lacks a non-empty string id. -/
def indexTree (root : RawNode) (inc : Bool) (mtl : Int) :
    Except String (String × (NodeMap × List String)) :=
  match root.get "id" with
  | some (.str rootId) =>
    if rootId = "" then .error "root node is missing a string 'id'"
    else .ok (rootId, visit inc mtl root none 0 ([], []))
  | _ => .error "root node is missing a string 'id'"

/-- The number of node-map keys not yet marked seen (termination measure for
the BFS loop). -/
def unseenCount (nodes : NodeMap) (seen : List String) : Nat :=
  ((nodes.map Prod.fst).filter (fun k => decide (k ∉ seen))).length

theorem alookup_none_not_mem_keys {α : Type} {m : List (String × α)} {k : String}
    (h : alookup m k = none) : k ∉ m.map Prod.fst := by
  induction m with
  | nil => simp
  | cons kv rest ih =>
    simp only [alookup] at h
    by_cases hk : kv.1 = k
    · simp [hk] at h
    · simp only [List.map_cons, List.mem_cons]
      rintro (rfl | hmem)
      · exact hk rfl
      · exact ih (by simpa [hk] using h) hmem

theorem alookup_some_mem_keys {α : Type} {m : List (String × α)} {k : String} {v : α}
    (h : alookup m k = some v) : k ∈ m.map Prod.fst := by
  induction m with
  | nil => simp [alookup] at h
  | cons kv rest ih =>
    simp only [alookup] at h
    by_cases hk : kv.1 = k
    · simp [hk]
    · simp only [List.map_cons, List.mem_cons]
      exact Or.inr (ih (by simpa [hk] using h))

theorem filter_unseen_lt {l : List String} {seen : List String} {nid : String}
    (hmem : nid ∈ l) (hseen : nid ∉ seen) :
    (l.filter (fun k => decide (k ∉ nid :: seen))).length <
      (l.filter (fun k => decide (k ∉ seen))).length := by
  induction l with
  | nil => simp at hmem
  | cons a l ih =>
    by_cases ha : a = nid
    · subst ha
      have hdrop : (decide (a ∉ a :: seen)) = false := by simp
      have hkeep : (decide (a ∉ seen)) = true := by simpa using hseen
      simp only [List.filter_cons, hdrop, hkeep]
      calc (l.filter (fun k => decide (k ∉ a :: seen))).length
          ≤ (l.filter (fun k => decide (k ∉ seen))).length := by
            apply List.Sublist.length_le
            apply List.monotone_filter_right
            intro k hk
            simp only [decide_eq_true_eq, List.mem_cons, not_or] at hk ⊢
            exact hk.2
        _ < (l.filter (fun k => decide (k ∉ seen))).length + 1 := Nat.lt_succ_self _
    · have hmem' : nid ∈ l := by
        rcases List.mem_cons.mp hmem with h | h
        · exact absurd h.symm ha
        · exact h
      have h1 : (decide (a ∉ nid :: seen)) = (decide (a ∉ seen)) := by
        simp [List.mem_cons, ha]
      simp only [List.filter_cons, h1]
      rcases Bool.eq_false_or_eq_true (decide (a ∉ seen)) with hf | ht
      · simp only [hf]
        simpa using ih hmem'
      · simp only [ht]
        simpa using Nat.succ_lt_succ (ih hmem')

theorem unseenCount_cons_of_not_mem {nodes : NodeMap} {seen : List String} {nid : String}
    (h : nid ∉ nodes.map Prod.fst) :
    unseenCount nodes (nid :: seen) = unseenCount nodes seen := by
  unfold unseenCount
  congr 1
  apply List.filter_congr
  intro k hk
  have hne : k ≠ nid := fun e => h (e ▸ hk)
  simp [List.mem_cons, hne]

theorem unseenCount_cons_lt {nodes : NodeMap} {seen : List String} {nid : String}
    (hmem : nid ∈ nodes.map Prod.fst) (hseen : nid ∉ seen) :
    unseenCount nodes (nid :: seen) < unseenCount nodes seen :=
  filter_unseen_lt hmem hseen

/-- bfs_order's while loop: pop the queue head, skip if seen, mark seen,
append to the order if it names a record, and enqueue its child ids. -/
def bfsLoop (nodes : NodeMap) (q : List String) (seen : List String)
    (order : List String) : List String :=
  match q with
  | [] => order
  | nid :: rest =>
    if nid ∈ seen then bfsLoop nodes rest seen order
    else
      match h : alookup nodes nid with
      | none => bfsLoop nodes rest (nid :: seen) order
      | some r => bfsLoop nodes (rest ++ r.childIds) (nid :: seen) (order ++ [nid])
termination_by (unseenCount nodes seen, q.length)
decreasing_by
  · exact Prod.Lex.right _ (Nat.lt_succ_self _)
  · rw [unseenCount_cons_of_not_mem (alookup_none_not_mem_keys h)]
    exact Prod.Lex.right _ (Nat.lt_succ_self _)
  · exact Prod.Lex.left _ _ (unseenCount_cons_lt (alookup_some_mem_keys h) (by assumption))

/-- bfs_order(nodes, root_id): the breadth-first visitation order. -/
def bfsOrder (nodes : NodeMap) (rootId : String) : List String :=
  bfsLoop nodes [rootId] [] []

/-- The loaded persisted state (version already checked by load_state). -/
structure WState where
  uiSystem : String
  rootId : String
  nodes : NodeMap
  bfs : List String
  decisions : List (String × J)

/-- _next_node_id: the first id in the immutable breadth-first order that is a
non-empty string with no Decision Store entry. -/
def nextNodeId (s : WState) : Option String :=
  s.bfs.find? (fun nid => nid != "" && !ahas s.decisions nid)

/-- cmd_next's "done" signal: emitted exactly when _next_node_id returns a
falsy value (None, or an empty string, which it never produces). -/
def nextIsDone (s : WState) : Bool :=
  match nextNodeId s with
  | none => true
  | some nid => nid = ""

/-- One iteration of the cmd_apply loop: store a decision for a known id
(last write wins); skip unknown ids and non-object decisions with a stderr
warning.  State components: (state, applied ids, stderr lines). -/
def applyPair (acc : WState × List String × List String) (nid : String) (dec : J) :
    WState × List String × List String :=
  let (s, applied, warns) := acc
  if !ahas s.nodes nid then
    (s, applied, warns ++ ["warning: patch references unknown node id " ++ nid ++ "; skipped"])
  else if !dec.isObj then
    (s, applied, warns ++ ["warning: decision for " ++ nid ++ " is not an object; skipped"])
  else
    ({ s with decisions := aset s.decisions nid dec }, applied ++ [nid], warns)

/-- The cmd_apply loop over the normalized (id, decision) pairs: the updated
state, the applied ids, and the emitted stderr warnings. -/
def applyPatches (s : WState) (patches : List (String × J)) :
    WState × List String × List String :=
  patches.foldl (fun acc p => applyPair acc p.1 p.2) (s, [], [])

/-- The state after one cmd_apply invocation. -/
def applyState (s : WState) (patches : List (String × J)) : WState :=
  (applyPatches s patches).1

/-- base_component_from_decision: the trimmed component.base string of a
decision, when well-formed. -/
def baseComponentFromDecision (decision : Option J) : Option String :=
  match decision with
  | some d =>
    match d.get "component" with
    | some (J.obj ckvs) =>
      match alookup ckvs "base" with
      | some (.str b) => if pyTrim b ≠ "" then some (pyTrim b) else none
      | _ => none
    | _ => none
  | none => none

/-- The allowed pin keys of the pins string grammar. -/
def PINS_ALLOWED_KEYS : List String := ["L", "R", "T", "B", "CX", "CY", "W", "H"]

/-- The value a run of ASCII digits denotes. -/
def digitsToNat (ds : List Char) : Nat :=
  ds.foldl (fun n c => n * 10 + (c.toNat - '0'.toNat)) 0

/-- Python float(s) on a plain decimal numeral ([+-]?digits, [+-]?digits.digits,
with either digit group optional but not both).  Exotic spellings float()
also accepts (exponents, inf/nan, underscores, surrounding whitespace) are not
modelled; no verified claim exercises them. -/
def parseFloatQ (s : String) : Option Q :=
  let cs := s.data
  let signAndRest : Int × List Char := match cs with
    | '-' :: rest => (-1, rest)
    | '+' :: rest => (1, rest)
    | _ => (1, cs)
  let sign := signAndRest.1
  let cs := signAndRest.2
  let intPart := cs.takeWhile Char.isDigit
  let rest := cs.dropWhile Char.isDigit
  match rest with
  | [] => if intPart.isEmpty then none else some ⟨sign * digitsToNat intPart, 1⟩
  | '.' :: frac =>
    if frac.all Char.isDigit && !(intPart.isEmpty && frac.isEmpty) then
      some ⟨sign * (digitsToNat intPart * 10 ^ frac.length + digitsToNat frac), 10 ^ frac.length⟩
    else none
  | _ => none

/-- parse_pins: parse "pins=K=V:K=V:..." into key/value pairs; returns the
parsed pairs (or none) together with the collected error strings. -/
def parsePins (pins : J) : Option (List (String × Q)) × List String :=
  match pins.asStr with
  | none => (none, ["pins_not_a_string"])
  | some s0 =>
    if pyTrim s0 = "" then (none, ["pins_not_a_string"])
    else
      let s := pyTrim s0
      if !pyStarts s "pins=" then (none, ["pins_missing_prefix"])
      else
        let body := pyTrim (pyDrop s 5)
        if body = "" then (none, ["pins_empty"])
        else
          let step := fun (acc : List (String × Q) × List String) (part0 : String) =>
            let part := pyTrim part0
            if part = "" then acc
            else if !pyContainsChar part '=' then (acc.1, acc.2 ++ ["pins_bad_part:" ++ part])
            else
              match pySplitChar '=' part with
              | [] => acc
              | key0 :: restParts =>
                let rawVal := pyTrim (pyJoin "=" restParts)
                let key := pyUpper (pyTrim key0)
                if !(key ∈ PINS_ALLOWED_KEYS) then
                  (acc.1, acc.2 ++ ["pins_unknown_key:" ++ key])
                else match parseFloatQ rawVal with
                  | none => (acc.1, acc.2 ++ ["pins_bad_value:" ++ key ++ "=" ++ rawVal])
                  | some v => (aset acc.1 key v, acc.2)
          let outErr := (pySplitChar ':' body).foldl step ([], [])
          if outErr.2 ≠ [] then (none, outErr.2)
          else if outErr.1.isEmpty then (none, ["pins_no_pairs"])
          else (some outErr.1, [])

/-- add_pin from compute_constraint_hints: integral values render without a
decimal part; non-integral rationals use the rational repr (a stand-in for
the Python float repr — every verified pin value is integral). -/
def pinStr (key : String) (q : Q) : String :=
  if q.isInt then key ++ "=" ++ toString q.toInt
  else key ++ "=" ++ toString q.num ++ "/" ++ toString q.den

/-- The key of a rendered pin part: everything before the first "=". -/
def pinKey (part : String) : String :=
  (pySplitChar '=' part).headD ""

/-- The final dedup loop of compute_constraint_hints: keep the first part for
each key. -/
def dedupPins : List String → List String → List String
  | [], _ => []
  | p :: rest, seenKeys =>
    let k := pinKey p
    if k ∈ seenKeys then dedupPins rest seenKeys
    else p :: dedupPins rest (k :: seenKeys)

/-- compute_constraint_hints(nodes, node_id, parent_id): the candidate pins
string derived from Figma constraints plus geometry, or none. -/
def computeConstraintHints (nodes : NodeMap) (nodeId : String)
    (parentId : Option String) : Option String :=
  match parentId with
  | none => none
  | some pid =>
    if pid = "" then none
    else
    match alookup nodes nodeId, alookup nodes pid with
    | some n, some p =>
      if !n.facts.isObj || !p.facts.isObj then none
      else
      let layout := n.facts.getD "layout" (J.obj [])
      let frame := n.facts.getD "frame" (J.obj [])
      let pframe := p.facts.getD "frame" (J.obj [])
      if !layout.isObj || !frame.isObj || !pframe.isObj then none
      else
      let parentLayout := p.facts.getD "layout" (J.obj [])
      let blocked :=
        if parentLayout.isObj then
          let plm := pyUpper (parentLayout.getD "layoutMode" (J.str "")).pyStr
          let cpos := pyUpper (layout.getD "layoutPositioning" (J.str "")).pyStr
          (plm == "HORIZONTAL" || plm == "VERTICAL") && cpos != "ABSOLUTE"
        else false
      if blocked then none
      else
      match layout.get "constraints" with
      | some (J.obj ckvs) =>
        let constraints := J.obj ckvs
        let xJ := frame.getD "x" J.null
        let yJ := frame.getD "y" J.null
        let wJ := frame.getD "width" J.null
        let hJ := frame.getD "height" J.null
        let pwJ := pframe.getD "width" J.null
        let phJ := pframe.getD "height" J.null
        if !(xJ.asNum.isSome && yJ.asNum.isSome && wJ.asNum.isSome && hJ.asNum.isSome &&
            pwJ.asNum.isSome && phJ.asNum.isSome) then none
        else
          let x := xJ.asNum.getD 0
          let y := yJ.asNum.getD 0
          let w := wJ.asNum.getD 0
          let h := hJ.asNum.getD 0
          let pw := pwJ.asNum.getD 0
          let ph := phJ.asNum.getD 0
          let horiz := pyUpper (constraints.getD "horizontal" (J.str "")).pyStr
          let vert := pyUpper (constraints.getD "vertical" (J.str "")).pyStr
          let hPins : List String :=
            if horiz = "MIN" then [pinStr "L" x]
            else if horiz = "MAX" then [pinStr "R" (-(pw - (x + w)))]
            else if horiz = "CENTER" then [pinStr "CX" ((x + w / 2) - pw / 2)]
            else if horiz = "STRETCH" then [pinStr "L" x, pinStr "R" (-(pw - (x + w)))]
            else if horiz = "SCALE" then [pinStr "L" x]
            else []
          let vPins : List String :=
            if vert = "MIN" then [pinStr "T" y]
            else if vert = "MAX" then [pinStr "B" (-(ph - (y + h)))]
            else if vert = "CENTER" then [pinStr "CY" ((y + h / 2) - ph / 2)]
            else if vert = "STRETCH" then [pinStr "T" y, pinStr "B" (-(ph - (y + h)))]
            else if vert = "SCALE" then [pinStr "T" y]
            else []
          let sizingH := pyUpper (layout.getD "layoutSizingHorizontal" (J.str "")).pyStr
          let sizingV := pyUpper (layout.getD "layoutSizingVertical" (J.str "")).pyStr
          let wPins : List String := if sizingH = "FIXED" ∨ sizingH = "" then [pinStr "W" w] else []
          let hgtPins : List String := if sizingV = "FIXED" ∨ sizingV = "" then [pinStr "H" h] else []
          let pins := hPins ++ vPins ++ wPins ++ hgtPins
          if pins.isEmpty then none
          else some ("pins=" ++ pyJoin ":" (dedupPins pins []))
      | _ => none
    | _, _ => none

/-- A node of the Export Tree built by build_export_tree: its non-children
JSON fields (source, component, layout, properties, warnings, ...) plus its
children, mirroring the dict produced by the script. -/
inductive SpecNode where
  | node (fields : List (String × J)) (children : List SpecNode)

/-- get_component_base_from_spec. -/
def specBase : SpecNode → Option String
  | .node fields _ =>
    match alookup fields "component" with
    | some (J.obj ckvs) =>
      match alookup ckvs "base" with
      | some (.str b) => if pyTrim b ≠ "" then some (pyTrim b) else none
      | _ => none
    | _ => none

/-- child_source_id from absorb_children_in_export_tree. -/
def childSourceId : SpecNode → Option String
  | .node fields _ =>
    match alookup fields "source" with
    | some (J.obj skvs) =>
      match alookup skvs "id" with
      | some (.str cid) => if cid ≠ "" then some cid else none
      | _ => none
    | _ => none

/-- child_properties from absorb_children_in_export_tree: the properties dict
of a node, or empty when missing or not a dict. -/
def childProps : SpecNode → List (String × J)
  | .node fields _ =>
    match alookup fields "properties" with
    | some (J.obj pkvs) => pkvs
    | _ => []

/-- The UIButton/Button label-absorption step: find the first child of the
given base class, copy its text (and color/font under UIKit) into the parent
properties unless already set, and mark the child for removal. -/
def buttonAbsorbLabel (children : List SpecNode) (props : List (String × J))
    (labelBase : String) (withColorFont : Bool) : List (String × J) × List Nat :=
  match children.enum.find? (fun ic => decide (specBase ic.2 = some labelBase)) with
  | none => (props, [])
  | some (i, c) =>
    let cp := childProps c
    let props :=
      if !objHas props "title" then
        match alookup cp "text" with
        | some (.str t) =>
          let props := objSet props "title" (J.str t)
          match childSourceId c with
          | some cid => objSet props "titleFrom" (J.str cid)
          | none => props
        | _ => props
      else props
    let props :=
      if withColorFont && !objHas props "titleColor" then
        match alookup cp "textColor" with
        | some (J.obj tckvs) => objSet props "titleColor" (J.obj tckvs)
        | _ => props
      else props
    let props :=
      if withColorFont && !objHas props "titleFont" then
        match alookup cp "font" with
        | some (J.obj fkvs) => objSet props "titleFont" (J.obj fkvs)
        | _ => props
      else props
    (props, [i])

/-- The UIButton/Button image-absorption step: find the first child of the
given base class, copy its image (and content mode under UIKit) into the
parent properties unless already set, and mark the child for removal. -/
def buttonAbsorbImage (children : List SpecNode) (props : List (String × J))
    (imageBase : String) (withContentMode : Bool) : List (String × J) × List Nat :=
  match children.enum.find? (fun ic => decide (specBase ic.2 = some imageBase)) with
  | none => (props, [])
  | some (i, c) =>
    let cp := childProps c
    let props :=
      if !objHas props "image" then
        match alookup cp "image" with
        | some (J.obj ikvs) =>
          let props := objSet props "image" (J.obj ikvs)
          match childSourceId c with
          | some cid => objSet props "imageFrom" (J.str cid)
          | none => props
        | _ => props
      else props
    let props :=
      if withContentMode && !objHas props "imageContentMode" then
        match alookup cp "contentMode" with
        | some (.str cm) => objSet props "imageContentMode" (J.str cm)
        | _ => props
      else props
    (props, [i])

/-- The UIImageView/Image self-absorption step: the first child of the given
base class whose properties hold a dict image donates that image; only that
child is removed. -/
def imageViewAbsorb (children : List SpecNode) (props : List (String × J))
    (imageBase : String) : List (String × J) × List Nat :=
  match children.enum.find? (fun ic =>
      decide (specBase ic.2 = some imageBase) &&
      (match alookup (childProps ic.2) "image" with
       | some (J.obj _) => true
       | _ => false)) with
  | none => (props, [])
  | some (i, c) =>
    match alookup (childProps c) "image" with
    | some (J.obj ikvs) =>
      let props := objSet props "image" (J.obj ikvs)
      let props := match childSourceId c with
        | some cid => objSet props "imageFrom" (J.str cid)
        | none => props
      (props, [i])
    | _ => (props, [])

/-- children with the marked indices removed (the final rewrite of
absorb_children_in_export_tree). -/
def removeIdxs (children : List SpecNode) (idxs : List Nat) : List SpecNode :=
  (children.enum.filter (fun ic => decide (ic.1 ∉ idxs))).map Prod.snd

/-- The non-recursive part of absorb_children_in_export_tree: everything the
source does after the initial recursion into children. -/
def absorbStep (ui : String) (fields : List (String × J)) (children : List SpecNode) :
    SpecNode :=
  let base := (specBase (.node fields children)).getD ""
  if base = "" then .node fields children
  else if children.isEmpty then .node fields children
  else
    -- get_properties_dict: materialize the properties dict if absent/non-dict.
    let props0 := childProps (.node fields children)
    let propsRem : List (String × J) × List Nat :=
      if ui = "UIKit" then
        if base = "UIButton" then
          let lr := buttonAbsorbLabel children props0 "UILabel" true
          let ir := buttonAbsorbImage children lr.1 "UIImageView" true
          (ir.1, lr.2 ++ ir.2)
        else if base = "UIImageView" then
          match alookup props0 "image" with
          | some (J.obj _) => (props0, [])  -- already has an image: keep (early return)
          | _ => imageViewAbsorb children props0 "UIImageView"
        else (props0, [])
      else if ui = "SwiftUI" then
        if base = "Button" then
          let tr := buttonAbsorbLabel children props0 "Text" false
          let ir := buttonAbsorbImage children tr.1 "Image" false
          (ir.1, tr.2 ++ ir.2)
        else if base = "Image" then
          match alookup props0 "image" with
          | some (J.obj _) => (props0, [])
          | _ => imageViewAbsorb children props0 "Image"
        else (props0, [])
      else (props0, [])
    let fieldsP := objSet fields "properties" (J.obj propsRem.1)
    let children2 := if propsRem.2 ≠ [] then removeIdxs children propsRem.2 else children
    .node fieldsP children2

mutual
/-- absorb_children_in_export_tree: recurse into the children first
(bottom-up), then run the parent-level absorption step. -/
def absorb (ui : String) : SpecNode → SpecNode
  | .node fields children => absorbStep ui fields (absorbList ui children)

/-- The initial recursion loop of absorb_children_in_export_tree. -/
def absorbList (ui : String) : List SpecNode → List SpecNode
  | [] => []
  | c :: rest => absorb ui c :: absorbList ui rest
end

/-- One entry of cmd_validate's errors/warnings list: node id, message, and
optional detail payload. -/
structure VItem where
  nodeId : String
  msg : String
  detail : Option J
deriving Repr

/-- The known layout.kind values. -/
def KNOWN_LAYOUT_KINDS : List String := ["root", "stack", "stackItem", "pins", "list", "scroll"]

/-- Pass 1 of cmd_validate for one node id: per-decision payload shape checks.
Returns (errors, warnings) contributed by this node. -/
def validateNodeShape (ui : String) (decisions : List (String × J)) (nodeId : String) :
    List VItem × List VItem :=
  match alookup decisions nodeId with
  | none => ([], [⟨nodeId, "missing_decision", none⟩])
  | some J.null => ([], [⟨nodeId, "missing_decision", none⟩])
  | some dec =>
    if !dec.isObj then ([⟨nodeId, "decision_not_object", none⟩], [])
    else
      match dec.get "component" with
      | some (J.obj ckvs) =>
        let baseJ := alookup ckvs "base"
        let baseErrs : List VItem :=
          match baseJ with
          | some (.str b) => if pyTrim b = "" then [⟨nodeId, "missing_component_base", none⟩] else []
          | _ => [⟨nodeId, "missing_component_base", none⟩]
        let layoutJ : Option J := match dec.get "layout" with
          | none => none
          | some J.null => none
          | some l => some l
        let layoutNotObjErrs : List VItem :=
          match layoutJ with
          | some l => if !l.isObj then [⟨nodeId, "layout_not_object", none⟩] else []
          | none => []
        let layoutObj : Option J := match layoutJ with
          | some l => if l.isObj then some l else none
          | none => none
        let inLayout : List VItem × List VItem :=
          match layoutObj with
          | none => ([], [])
          | some l =>
            let kindJ : Option J := match l.get "kind" with
              | none => none
              | some J.null => none
              | some v => some v
            let kindErrs : List VItem :=
              match kindJ with
              | some v => if v.asStr.isNone then [⟨nodeId, "layout_kind_not_string", none⟩] else []
              | none => []
            let kindWarns : List VItem :=
              match kindJ with
              | some (.str k) =>
                if !(k ∈ KNOWN_LAYOUT_KINDS) then
                  [⟨nodeId, "layout_kind_unknown", some (J.str k)⟩]
                else []
              | _ => []
            let pinsErrs : List VItem :=
              match l.get "pins" with
              | none => []
              | some J.null => []
              | some pinsJ =>
                let pe := (parsePins pinsJ).2
                if pe ≠ [] then [⟨nodeId, "invalid_pins_string", some (J.arr (pe.map J.str))⟩]
                else []
            let axisErrs : List VItem :=
              match kindJ with
              | some (.str "stack") =>
                match l.get "axis" with
                | some (.str "horizontal") => []
                | some (.str "vertical") => []
                | _ => [⟨nodeId, "stack_axis_missing_or_invalid", none⟩]
              | _ => []
            (kindErrs ++ pinsErrs ++ axisErrs, kindWarns)
        let cellErrs : List VItem :=
          if ui = "UIKit" then
            match baseJ with
            | some (.str b) =>
              if pyTrim b = "UITableViewCell" ∨ pyTrim b = "UICollectionViewCell" then
                match layoutObj with
                | none => [⟨nodeId, "cell_missing_layout", none⟩]
                | some l =>
                  let cs := l.get "cellSizing"
                  let csErrs : List VItem :=
                    match cs with
                    | some (.str "selfSizing") => []
                    | some (.str "fixed") => []
                    | _ => [⟨nodeId, "cellSizing_missing_or_invalid", none⟩]
                  let fsErrs : List VItem :=
                    match cs with
                    | some (.str "fixed") =>
                      match l.get "fixedSize" with
                      | some (J.obj fkvs) =>
                        let fs := J.obj fkvs
                        if (fs.getD "width" J.null).asNum.isNone ∨
                            (fs.getD "height" J.null).asNum.isNone then
                          [⟨nodeId, "fixed_cell_requires_fixedSize_width_height", none⟩]
                        else []
                      | _ => [⟨nodeId, "fixed_cell_requires_fixedSize_width_height", none⟩]
                    | _ => []
                  csErrs ++ fsErrs
              else []
            | _ => []
          else []
        (baseErrs ++ layoutNotObjErrs ++ inLayout.1 ++ cellErrs, inLayout.2)
      | _ => ([⟨nodeId, "missing_component_object", none⟩], [])

/-- Pass 2 of cmd_validate for one node: parent-to-child structural checks.
Returns (errors, warnings) contributed by this parent's children. -/
def validateStructural (ui : String) (decisions : List (String × J))
    (nodeId : String) (recd : NodeRec) : List VItem × List VItem :=
  let parentBase := (baseComponentFromDecision (alookup decisions nodeId)).getD ""
  let childIds := recd.childIds
  if childIds.isEmpty then ([], [])
  else if ui = "UIKit" then
    let listPart : List VItem × List VItem :=
      if parentBase = "UICollectionView" ∨ parentBase = "UITableView" then
        let must := if parentBase = "UICollectionView" then "UICollectionViewCell"
          else "UITableViewCell"
        childIds.foldl (fun acc cid =>
          match baseComponentFromDecision (alookup decisions cid) with
          | none => (acc.1, acc.2 ++ [⟨cid, "child_missing_decision_under_list_container",
              some (J.obj [("parent", J.str nodeId), ("mustBe", J.str must)])⟩])
          | some cbase =>
            if cbase ≠ must then
              (acc.1 ++ [⟨cid, "child_component_must_be_cell",
                some (J.obj [("parent", J.str nodeId), ("mustBe", J.str must),
                  ("actual", J.str cbase)])⟩], acc.2)
            else acc) ([], [])
      else ([], [])
    let buttonPart : List VItem × List VItem :=
      if parentBase = "UIButton" then
        childIds.foldl (fun acc cid =>
          match baseComponentFromDecision (alookup decisions cid) with
          | none => acc
          | some cbase =>
            if cbase ≠ "UILabel" ∧ cbase ≠ "UIImageView" then
              (acc.1, acc.2 ++ [⟨cid, "unexpected_child_under_UIButton",
                some (J.obj [("parent", J.str nodeId), ("actual", J.str cbase)])⟩])
            else acc) ([], [])
      else ([], [])
    (listPart.1 ++ buttonPart.1, listPart.2 ++ buttonPart.2)
  else if ui = "SwiftUI" then
    let buttonPart : List VItem × List VItem :=
      if parentBase = "Button" then
        childIds.foldl (fun acc cid =>
          match baseComponentFromDecision (alookup decisions cid) with
          | none => acc
          | some cbase =>
            if !(cbase ∈ ["Text", "Image", "Label", "View"]) then
              (acc.1, acc.2 ++ [⟨cid, "unexpected_child_under_Button",
                some (J.obj [("parent", J.str nodeId), ("actual", J.str cbase)])⟩])
            else acc) ([], [])
      else ([], [])
    let listPart : List VItem × List VItem :=
      if parentBase = "List" then
        childIds.foldl (fun acc cid =>
          match baseComponentFromDecision (alookup decisions cid) with
          | none => acc
          | some cbase =>
            if !(cbase ∈ ["View", "Text", "Image", "HStack", "VStack", "ZStack"]) then
              (acc.1, acc.2 ++ [⟨cid, "unexpected_child_under_List",
                some (J.obj [("parent", J.str nodeId), ("actual", J.str cbase)])⟩])
            else acc) ([], [])
      else ([], [])
    (buttonPart.1 ++ listPart.1, buttonPart.2 ++ listPart.2)
  else ([], [])

/-- The result object of cmd_validate, plus the process exit status. -/
structure ValidateResult where
  ok : Bool
  errors : List VItem
  warnings : List VItem
  exitCode : Nat
deriving Repr

/-- cmd_validate: both validation passes over the full node map and Decision
Store; ok is errorCount == 0 and the exit status is 0 on ok else 1. -/
def cmdValidate (s : WState) : ValidateResult :=
  let p1 := s.nodes.foldl (fun acc kv =>
    let ew := validateNodeShape s.uiSystem s.decisions kv.1
    (acc.1 ++ ew.1, acc.2 ++ ew.2)) (([], []) : List VItem × List VItem)
  let p2 := s.nodes.foldl (fun acc kv =>
    let ew := validateStructural s.uiSystem s.decisions kv.1 kv.2
    (acc.1 ++ ew.1, acc.2 ++ ew.2)) p1
  let ok := p2.1.isEmpty
  { ok := ok, errors := p2.1, warnings := p2.2, exitCode := if ok then 0 else 1 }

/-- C5 example: the child record's facts (x=20, width=100, horizontal
constraint MAX, with y/height present so the node geometry is complete). -/
def c5ChildFacts : J := J.obj [
  ("frame", J.obj [("x", J.num 20), ("y", J.num 0), ("width", J.num 100), ("height", J.num 50)]),
  ("layout", J.obj [("constraints", J.obj [("horizontal", J.str "MAX")])])]

/-- C5 example: the parent record's facts (width=300, height=500). -/
def c5ParentFacts : J := J.obj [
  ("frame", J.obj [("width", J.num 300), ("height", J.num 500)])]

/-- C5 example: the two-node map. -/
def c5Nodes : NodeMap := [
  ("child", { id := "child", name := "child", type := "FRAME", parentId := some "parent",
              depth := 1, childIds := [], facts := c5ChildFacts }),
  ("parent", { id := "parent", name := "parent", type := "FRAME", parentId := none,
               depth := 0, childIds := ["child"], facts := c5ParentFacts })]

/-- C5: a child at x=20, width=100 under a parent of width=300 with horizontal
constraint MAX yields a pins hint containing the pin R=-180, the negated inset
300 - (20 + 100). -/
theorem c5_trailing_pin_max_constraint :
    computeConstraintHints c5Nodes "child" (some "parent") = some "pins=R=-180:W=100:H=50" ∧
    "R=-180" ∈ pySplitChar ':' (pyDrop "pins=R=-180:W=100:H=50" 5) ∧
    Q.eqv (-180) (-((300 : Q) - (20 + 100))) = true := by
  refine ⟨by decide, by decide, by decide⟩

/-- The frame dict a record's facts carry (facts.get("frame", {})). -/
def nodeFrameOf (n : NodeRec) : J := n.facts.getD "frame" (J.obj [])

/-- The layout dict a record's facts carry (facts.get("layout", {})). -/
def nodeLayoutOf (n : NodeRec) : J := n.facts.getD "layout" (J.obj [])

/-- The exact preconditions under which compute_constraint_hints can produce
a pins hint: a parent id naming a record, the node's own record present, the
node's raw constraints object present, numeric x/y/width/height on the node's
frame, numeric width/height on the parent's frame, and the node either not
inside an auto-layout parent or explicitly positioned ABSOLUTE. -/
def pinsHintPreconds (nodes : NodeMap) (nodeId : String) (parentId : Option String) : Prop :=
  ∃ pid n p,
    parentId = some pid ∧ pid ≠ "" ∧
    alookup nodes nodeId = some n ∧ alookup nodes pid = some p ∧
    (∃ ckvs, (nodeLayoutOf n).get "constraints" = some (J.obj ckvs)) ∧
    ((nodeFrameOf n).getD "x" J.null).asNum.isSome ∧
    ((nodeFrameOf n).getD "y" J.null).asNum.isSome ∧
    ((nodeFrameOf n).getD "width" J.null).asNum.isSome ∧
    ((nodeFrameOf n).getD "height" J.null).asNum.isSome ∧
    ((nodeFrameOf p).getD "width" J.null).asNum.isSome ∧
    ((nodeFrameOf p).getD "height" J.null).asNum.isSome ∧
    (¬ (pyUpper ((nodeLayoutOf p).getD "layoutMode" (J.str "")).pyStr = "HORIZONTAL" ∨
        pyUpper ((nodeLayoutOf p).getD "layoutMode" (J.str "")).pyStr = "VERTICAL") ∨
      pyUpper ((nodeLayoutOf n).getD "layoutPositioning" (J.str "")).pyStr = "ABSOLUTE")


/-- C6 (amended): whenever compute_constraint_hints produces a pins hint, all
of its preconditions hold; contrapositively, if any fails no hint is produced. -/
theorem c6_pins_hint_only_under_preconds (nodes : NodeMap) (nodeId : String)
    (parentId : Option String) (s : String)
    (h : computeConstraintHints nodes nodeId parentId = some s) :
    pinsHintPreconds nodes nodeId parentId := by
  rcases parentId with _ | pid
  · simp only [computeConstraintHints] at h
    exact absurd h (by simp)
  · simp only [computeConstraintHints] at h
    by_cases hpe : pid = ""
    · rw [if_pos hpe] at h; exact absurd h (by simp)
    rw [if_neg hpe] at h
    rcases hn : alookup nodes nodeId with _ | n
    · rcases hp2 : alookup nodes pid with _ | p <;>
        simp only [hn, hp2] at h <;> exact absurd h (by simp)
    rcases hp2 : alookup nodes pid with _ | p
    · simp only [hn, hp2] at h; exact absurd h (by simp)
    simp only [hn, hp2] at h
    refine ⟨pid, n, p, rfl, hpe, hn, hp2, ?_⟩
    by_cases hf : (!n.facts.isObj || !p.facts.isObj) = true
    · rw [if_pos hf] at h; exact absurd h (by simp)
    rw [if_neg hf] at h
    by_cases hlf : (!(n.facts.getD "layout" (J.obj [])).isObj ||
        !(n.facts.getD "frame" (J.obj [])).isObj ||
        !(p.facts.getD "frame" (J.obj [])).isObj) = true
    · rw [if_pos hlf] at h; exact absurd h (by simp)
    rw [if_neg hlf] at h
    by_cases hb : (if (p.facts.getD "layout" (J.obj [])).isObj = true then
        (pyUpper ((p.facts.getD "layout" (J.obj [])).getD "layoutMode" (J.str "")).pyStr
            == "HORIZONTAL" ||
          pyUpper ((p.facts.getD "layout" (J.obj [])).getD "layoutMode" (J.str "")).pyStr
            == "VERTICAL") &&
        pyUpper ((n.facts.getD "layout" (J.obj [])).getD "layoutPositioning"
          (J.str "")).pyStr != "ABSOLUTE"
      else false) = true
    · rw [if_pos hb] at h; exact absurd h (by simp)
    rw [if_neg hb] at h
    rcases hc : (n.facts.getD "layout" (J.obj [])).get "constraints" with _ | jc
    · simp only [hc] at h
      exact absurd h (by simp)
    rcases jc with _ | b | q | s2 | es | ckvs
    all_goals simp only [hc] at h
    · exact absurd h (by simp)
    · exact absurd h (by simp)
    · exact absurd h (by simp)
    · exact absurd h (by simp)
    · exact absurd h (by simp)
    refine ⟨⟨ckvs, hc⟩, ?_⟩
    by_cases hg : (!(((n.facts.getD "frame" (J.obj [])).getD "x" J.null).asNum.isSome &&
        ((n.facts.getD "frame" (J.obj [])).getD "y" J.null).asNum.isSome &&
        ((n.facts.getD "frame" (J.obj [])).getD "width" J.null).asNum.isSome &&
        ((n.facts.getD "frame" (J.obj [])).getD "height" J.null).asNum.isSome &&
        ((p.facts.getD "frame" (J.obj [])).getD "width" J.null).asNum.isSome &&
        ((p.facts.getD "frame" (J.obj [])).getD "height" J.null).asNum.isSome)) = true
    · rw [if_pos hg] at h; exact absurd h (by simp)
    rw [if_neg hg] at h
    have hg2 := hg
    simp only [Bool.not_eq_true', Bool.not_eq_false, Bool.and_eq_true] at hg2
    obtain ⟨⟨⟨⟨⟨hx, hy⟩, hw⟩, hh⟩, hpw⟩, hph⟩ := hg2
    refine ⟨by rw [nodeFrameOf]; exact hx, by rw [nodeFrameOf]; exact hy,
      by rw [nodeFrameOf]; exact hw, by rw [nodeFrameOf]; exact hh,
      by rw [nodeFrameOf]; exact hpw, by rw [nodeFrameOf]; exact hph, ?_⟩
    by_cases hPl : (p.facts.getD "layout" (J.obj [])).isObj = true
    · rw [nodeLayoutOf, nodeLayoutOf]
      have hb2 := hb
      rw [if_pos hPl] at hb2
      simp only [Bool.and_eq_true, Bool.or_eq_true, beq_iff_eq, bne_iff_ne,
        not_and, not_or, Decidable.not_not] at hb2
      by_cases hH : pyUpper ((p.facts.getD "layout" (J.obj [])).getD "layoutMode"
          (J.str "")).pyStr = "HORIZONTAL" ∨
          pyUpper ((p.facts.getD "layout" (J.obj [])).getD "layoutMode"
            (J.str "")).pyStr = "VERTICAL"
      · refine Or.inr ?_
        rcases hH with hH | hH
        · exact hb2 (Or.inl hH)
        · exact hb2 (Or.inr hH)
      · exact Or.inl hH
    · -- the parent's layout value is present but not a dict: then the
      -- getD of "layoutMode" on it is the default empty string
      rw [nodeLayoutOf, nodeLayoutOf]
      refine Or.inl ?_
      intro hcontra
      have hdef : (p.facts.getD "layout" (J.obj [])).getD "layoutMode" (J.str "") = J.str "" := by
        rcases hv : p.facts.getD "layout" (J.obj []) with _ | b | q | s3 | es | kvs
        all_goals first
          | rfl
          | (exact absurd (by rw [hv]; rfl) hPl)
      rw [hdef] at hcontra
      rcases hcontra with hcontra | hcontra <;> exact absurd hcontra (by decide)

/-- C6 counterexample: a pins hint is produced although the parent's frame
holds neither an x nor a y coordinate (only width and height), so the "both
node and parent have complete frame geometry" precondition of the claim does
not hold as stated. -/
theorem c6_counterexample_parent_frame_incomplete :
    (computeConstraintHints c5Nodes "child" (some "parent")).isSome = true ∧
    ∃ p, alookup c5Nodes "parent" = some p ∧
      (nodeFrameOf p).get "x" = none ∧ (nodeFrameOf p).get "y" = none := by
  refine ⟨by decide, ⟨_, rfl, rfl, rfl⟩⟩

/-- C6 witness: at the concrete C5 input the hint is produced and the
preconditions hold. -/
theorem c6_pins_hint_only_under_preconds_witness :
    pinsHintPreconds c5Nodes "child" (some "parent") :=
  c6_pins_hint_only_under_preconds c5Nodes "child" (some "parent")
    "pins=R=-180:W=100:H=50" (by decide)

/-- C4 example: the UILabel child holding text "Go". -/
def c4Label : SpecNode := .node
  [("source", J.obj [("id", J.str "lbl"), ("name", J.str "Title"), ("type", J.str "TEXT")]),
   ("component", J.obj [("base", J.str "UILabel")]),
   ("properties", J.obj [("text", J.str "Go")])] []

/-- C4 example: the UIImageView child holding an image reference. -/
def c4Image : SpecNode := .node
  [("source", J.obj [("id", J.str "img"), ("name", J.str "Icon"), ("type", J.str "IMAGE")]),
   ("component", J.obj [("base", J.str "UIImageView")]),
   ("properties", J.obj [("image", J.obj [("imageHash", J.str "hash123")])])] []

/-- C4 example: the UIButton parent with the label and image children. -/
def c4Button : SpecNode := .node
  [("source", J.obj [("id", J.str "btn"), ("name", J.str "Buy"), ("type", J.str "FRAME")]),
   ("component", J.obj [("base", J.str "UIButton")])] [c4Label, c4Image]

/-- C4: under UIKit absorption a UIButton parent with a UILabel child holding
text "Go" and a UIImageView child holding an image reference ends up with
title "Go", titleFrom the label's source id, the child's image value,
imageFrom the image child's source id, and no children; and absorption is
bottom-up: every node's children are absorbed before the parent's own step
runs. -/
theorem c4_button_absorbs_label_and_image :
    absorb "UIKit" c4Button = SpecNode.node
      [("source", J.obj [("id", J.str "btn"), ("name", J.str "Buy"), ("type", J.str "FRAME")]),
       ("component", J.obj [("base", J.str "UIButton")]),
       ("properties", J.obj
         [("title", J.str "Go"), ("titleFrom", J.str "lbl"),
          ("image", J.obj [("imageHash", J.str "hash123")]), ("imageFrom", J.str "img")])]
      [] ∧
    (∀ (ui : String) (fs : List (String × J)) (cs : List SpecNode),
      absorb ui (.node fs cs) = absorbStep ui fs (cs.map (absorb ui))) := by
  constructor
  · rfl
  · intro ui fs cs
    show absorbStep ui fs (absorbList ui cs) = absorbStep ui fs (cs.map (absorb ui))
    congr 1
    induction cs with
    | nil => rfl
    | cons c rest ih => simp [absorbList, ih]

/-- C10 input shape: a UILabel child with source id "lbl" and the given
properties. -/
def c10Child (cp : List (String × J)) : SpecNode := .node
  [("source", J.obj [("id", J.str "lbl")]),
   ("component", J.obj [("base", J.str "UILabel")]),
   ("properties", J.obj cp)] []

/-- C10 input shape: a UIButton parent whose only child is the UILabel. -/
def c10Parent (cp : List (String × J)) : SpecNode := .node
  [("component", J.obj [("base", J.str "UIButton")])] [c10Child cp]

/-- C10 counterexample: the UILabel child carries a textColor but no string
text; absorption still copies titleColor up to the UIButton parent, so "the
child is dropped without any title, titleFrom, titleColor, or titleFont being
copied" fails as stated. -/
theorem c10_counterexample_titleColor_copied_without_text :
    absorb "UIKit" (c10Parent [("textColor", J.obj [("token", J.str "text.primary")])]) =
      SpecNode.node
        [("component", J.obj [("base", J.str "UIButton")]),
         ("properties", J.obj [("titleColor", J.obj [("token", J.str "text.primary")])])] [] ∧
    alookup [("textColor", J.obj [("token", J.str "text.primary")])] "text" = none := by
  exact ⟨rfl, rfl⟩

/-- C10 (amended): under UIKit absorption, a UIButton parent whose first
child is UILabel-class always has that child removed from the exported
children, whatever the child's properties hold; when the child has no string
text, no title or titleFrom is copied; but a textColor object is still
copied to titleColor (and likewise a font object to titleFont). -/
theorem c10_first_label_child_always_removed (cp : List (String × J)) :
    (∃ fs, absorb "UIKit" (c10Parent cp) = SpecNode.node fs []) ∧
    ((∀ t, alookup cp "text" ≠ some (J.str t)) →
      alookup (childProps (absorb "UIKit" (c10Parent cp))) "title" = none ∧
      alookup (childProps (absorb "UIKit" (c10Parent cp))) "titleFrom" = none) ∧
    (∀ tckvs, alookup cp "textColor" = some (J.obj tckvs) →
      alookup (childProps (absorb "UIKit" (c10Parent cp))) "titleColor" =
        some (J.obj tckvs)) := by
  have habs : absorb "UIKit" (c10Parent cp) = SpecNode.node
      [("component", J.obj [("base", J.str "UIButton")]),
       ("properties", J.obj (buttonAbsorbLabel [c10Child cp] [] "UILabel" true).1)] [] := rfl
  have hcp : childProps (absorb "UIKit" (c10Parent cp)) =
      (buttonAbsorbLabel [c10Child cp] [] "UILabel" true).1 := by
    rw [habs]; exact rfl
  have hP : (buttonAbsorbLabel [c10Child cp] [] "UILabel" true).1 =
      (let props1 : List (String × J) := match alookup cp "text" with
        | some (.str t) => objSet (objSet [] "title" (J.str t)) "titleFrom" (J.str "lbl")
        | _ => []
       let props2 := if !objHas props1 "titleColor" then
          match alookup cp "textColor" with
          | some (J.obj tckvs) => objSet props1 "titleColor" (J.obj tckvs)
          | _ => props1
        else props1
       let props3 := if !objHas props2 "titleFont" then
          match alookup cp "font" with
          | some (J.obj fkvs) => objSet props2 "titleFont" (J.obj fkvs)
          | _ => props2
        else props2
       props3) := rfl
  refine ⟨⟨_, habs⟩, ?_, ?_⟩
  · intro h
    rw [hcp, hP]
    rcases htext : alookup cp "text" with _ | (_ | b | q | s2 | es | tkv)
    all_goals try exact absurd htext (h _)
    all_goals (
      rcases hcol : alookup cp "textColor" with _ | (_ | b1 | q1 | s3 | es1 | tckvs1) <;>
        rcases hfont : alookup cp "font" with _ | (_ | b2 | q2 | s4 | es2 | fkvs) <;>
        exact ⟨rfl, rfl⟩)
  · intro tckvs hcol
    rw [hcp, hP, hcol]
    rcases htext : alookup cp "text" with _ | (_ | b | q | s2 | es | tkv) <;>
      rcases hfont : alookup cp "font" with _ | (_ | b2 | q2 | s4 | es2 | fkvs) <;>
      rfl

/-- The "text.characters" entry of a facts object. -/
def factsTextChars (facts : J) : Option J :=
  (facts.getD "text" J.null).get "characters"

/-- The "text.charactersTruncated" entry of a facts object. -/
def factsTextTrunc (facts : J) : Option J :=
  (facts.getD "text" J.null).get "charactersTruncated"

/-- A minimal raw TEXT node carrying only id, type and characters. -/
def c8Node (chars : String) : RawNode := .node
  [("id", J.str "t1"), ("type", J.str "TEXT"), ("characters", J.str chars)] []

/-- C8 counterexample: with maximum length 2 the stored value for "abcd" is
"ab..." — the first two characters plus an appended ellipsis — which is not
the characters truncated to the configured maximum length (its length is 5,
not 2). -/
theorem c8_counterexample_ellipsis_appended :
    factsTextChars (nodeFacts (c8Node "abcd") 2) = some (J.str "ab...") ∧
    factsTextTrunc (nodeFacts (c8Node "abcd") 2) = some (J.jbool true) ∧
    "ab..." ≠ pyTake "abcd" 2 ∧ "ab...".length ≠ 2 := by
  exact ⟨rfl, rfl, by decide, by decide⟩

theorem c8_facts_shape (chars : String) (mtl : Int) (hne : chars ≠ "") :
    nodeFacts (c8Node chars) mtl = J.obj
      [("nameTokens", J.arr []), ("visible", J.jbool true), ("locked", J.jbool false),
       ("text", J.obj (if 0 ≤ mtl ∧ mtl < (chars.length : Int) then
            [("characters", J.str (pyTake chars mtl.toNat ++ "...")),
             ("charactersTruncated", J.jbool true)]
          else [("characters", J.str chars)]))] := by
  have hjor : jOr ((c8Node chars).get "characters") ((c8Node chars).get "text") =
      some (J.str chars) := by
    simp [c8Node, RawNode.get, alookup, jOr, J.truthy, bne_iff_ne, hne]
  unfold nodeFacts
  simp only [hjor]
  rw [if_pos hne]
  by_cases hc : 0 ≤ mtl ∧ mtl < (chars.length : Int)
  · rw [if_pos hc, if_pos hc]
    rfl
  · rw [if_neg hc, if_neg hc]
    rfl

/-- C8 (amended): for a TEXT node with a non-empty characters string, a
non-negative configured maximum shorter than the string stores the first
maxTextLen characters followed by the "..." ellipsis marker and sets the
truncation flag; a string within the limit is stored unchanged with no flag;
and a negative configured maximum never truncates. -/
theorem c8_truncation_behavior (chars : String) (mtl : Int) (hne : chars ≠ "") :
    (0 ≤ mtl → mtl < (chars.length : Int) →
      factsTextChars (nodeFacts (c8Node chars) mtl) =
        some (J.str (pyTake chars mtl.toNat ++ "...")) ∧
      factsTextTrunc (nodeFacts (c8Node chars) mtl) = some (J.jbool true)) ∧
    (0 ≤ mtl → (chars.length : Int) ≤ mtl →
      factsTextChars (nodeFacts (c8Node chars) mtl) = some (J.str chars) ∧
      factsTextTrunc (nodeFacts (c8Node chars) mtl) = none) ∧
    (mtl < 0 →
      factsTextChars (nodeFacts (c8Node chars) mtl) = some (J.str chars) ∧
      factsTextTrunc (nodeFacts (c8Node chars) mtl) = none) := by
  refine ⟨?_, ?_, ?_⟩
  · intro h1 h2
    rw [c8_facts_shape chars mtl hne, if_pos ⟨h1, h2⟩]
    exact ⟨rfl, rfl⟩
  · intro h1 h2
    rw [c8_facts_shape chars mtl hne,
      if_neg (fun hcon => absurd hcon.2 (not_lt.mpr h2))]
    exact ⟨rfl, rfl⟩
  · intro h
    rw [c8_facts_shape chars mtl hne,
      if_neg (fun hcon => absurd h (not_lt.mpr hcon.1))]
    exact ⟨rfl, rfl⟩

/-- C8 witness: "hello" with maximum 3 stores "hel..." with the flag set. -/
theorem c8_truncation_behavior_witness :
    factsTextChars (nodeFacts (c8Node "hello") 3) = some (J.str "hel...") ∧
    factsTextTrunc (nodeFacts (c8Node "hello") 3) = some (J.jbool true) :=
  (c8_truncation_behavior "hello" 3 (by decide)).1 (by decide) (by decide)

/-- The state update of one cmd_apply loop iteration (the applied/warning
accumulators do not influence it). -/
def applyOneState (s : WState) (nid : String) (dec : J) : WState :=
  (applyPair (s, [], []) nid dec).1

theorem applyPair_state_indep (s : WState) (a1 w1 a2 w2 : List String)
    (nid : String) (dec : J) :
    (applyPair (s, a1, w1) nid dec).1 = (applyPair (s, a2, w2) nid dec).1 := by
  simp only [applyPair]
  by_cases h1 : (!ahas s.nodes nid) = true
  · rw [if_pos h1, if_pos h1]
  · rw [if_neg h1, if_neg h1]
    by_cases h2 : (!dec.isObj) = true
    · rw [if_pos h2, if_pos h2]
    · rw [if_neg h2, if_neg h2]

theorem applyState_eq_foldl (ps : List (String × J)) :
    ∀ (s : WState) (a w : List String),
    (ps.foldl (fun acc p => applyPair acc p.1 p.2) (s, a, w)).1 =
      ps.foldl (fun st p => applyOneState st p.1 p.2) s := by
  induction ps with
  | nil => intro s a w; rfl
  | cons p rest ih =>
    intro s a w
    simp only [List.foldl_cons]
    have hsplit : applyPair (s, a, w) p.1 p.2 =
        ((applyPair (s, a, w) p.1 p.2).1,
         (applyPair (s, a, w) p.1 p.2).2.1, (applyPair (s, a, w) p.1 p.2).2.2) := rfl
    rw [hsplit, ih, applyPair_state_indep s a w [] []]
    rfl

theorem applyState_foldl (s : WState) (ps : List (String × J)) :
    applyState s ps = ps.foldl (fun st p => applyOneState st p.1 p.2) s :=
  applyState_eq_foldl ps s [] []

theorem applyOneState_nodes (s : WState) (nid : String) (dec : J) :
    (applyOneState s nid dec).nodes = s.nodes := by
  simp only [applyOneState, applyPair]
  by_cases h1 : (!ahas s.nodes nid) = true
  · rw [if_pos h1]
  · rw [if_neg h1]
    by_cases h2 : (!dec.isObj) = true
    · rw [if_pos h2]
    · rw [if_neg h2]

theorem applyOneState_bfs (s : WState) (nid : String) (dec : J) :
    (applyOneState s nid dec).bfs = s.bfs := by
  simp only [applyOneState, applyPair]
  by_cases h1 : (!ahas s.nodes nid) = true
  · rw [if_pos h1]
  · rw [if_neg h1]
    by_cases h2 : (!dec.isObj) = true
    · rw [if_pos h2]
    · rw [if_neg h2]

theorem applyOneState_hit (s : WState) (nid : String) (dec : J)
    (hn : ahas s.nodes nid = true) (hobj : dec.isObj = true) :
    alookup (applyOneState s nid dec).decisions nid = some dec := by
  simp only [applyOneState, applyPair]
  rw [if_neg (by simp [hn]), if_neg (by simp [hobj])]
  exact alookup_aset_self _ _ _

theorem applyOneState_other (s : WState) (nid : String) (dec : J) (id : String)
    (hne : id ≠ nid) :
    alookup (applyOneState s nid dec).decisions id = alookup s.decisions id := by
  simp only [applyOneState, applyPair]
  by_cases h1 : (!ahas s.nodes nid) = true
  · rw [if_pos h1]
  · rw [if_neg h1]
    by_cases h2 : (!dec.isObj) = true
    · rw [if_pos h2]
    · rw [if_neg h2]
      exact alookup_aset_ne _ _ _ _ hne

theorem applyOneState_mono (s : WState) (nid : String) (dec : J) (id : String) (d : J)
    (h : alookup s.decisions id = some d) :
    ∃ d2, alookup (applyOneState s nid dec).decisions id = some d2 := by
  by_cases hne : id = nid
  · subst hne
    simp only [applyOneState, applyPair]
    by_cases h1 : (!ahas s.nodes id) = true
    · rw [if_pos h1]; exact ⟨d, h⟩
    · rw [if_neg h1]
      by_cases h2 : (!dec.isObj) = true
      · rw [if_pos h2]; exact ⟨d, h⟩
      · rw [if_neg h2]
        exact ⟨dec, alookup_aset_self _ _ _⟩
  · rw [applyOneState_other s nid dec id hne]
    exact ⟨d, h⟩

theorem applyState_nodes (ps : List (String × J)) :
    ∀ s : WState, (applyState s ps).nodes = s.nodes := by
  induction ps with
  | nil => intro s; rfl
  | cons p rest ih =>
    intro s
    rw [applyState_foldl, List.foldl_cons, ← applyState_foldl, ih, applyOneState_nodes]

theorem applyState_bfs (ps : List (String × J)) :
    ∀ s : WState, (applyState s ps).bfs = s.bfs := by
  induction ps with
  | nil => intro s; rfl
  | cons p rest ih =>
    intro s
    rw [applyState_foldl, List.foldl_cons, ← applyState_foldl, ih, applyOneState_bfs]

theorem applyState_not_touched (ps : List (String × J)) :
    ∀ (s : WState) (id : String), (∀ p ∈ ps, p.1 ≠ id) →
    alookup (applyState s ps).decisions id = alookup s.decisions id := by
  induction ps with
  | nil => intro s id _; rfl
  | cons p rest ih =>
    intro s id hnt
    rw [applyState_foldl, List.foldl_cons, ← applyState_foldl]
    rw [ih _ id (fun q hq => hnt q (List.mem_cons_of_mem p hq))]
    exact applyOneState_other s p.1 p.2 id
      (fun e => hnt p (List.mem_cons_self p rest) (e ▸ rfl))

theorem applyState_last_entry (ps : List (String × J)) :
    ∀ (s : WState) (id : String) (d : J), (ps.map Prod.fst).Nodup →
    (id, d) ∈ ps → ahas s.nodes id = true → d.isObj = true →
    alookup (applyState s ps).decisions id = some d := by
  induction ps with
  | nil => intro s id d _ hmem; simp at hmem
  | cons p rest ih =>
    intro s id d hnd hmem hn hobj
    rw [applyState_foldl, List.foldl_cons, ← applyState_foldl]
    rcases List.mem_cons.mp hmem with heq | hmem'
    · subst heq
      have hnotin : ∀ q ∈ rest, q.1 ≠ id := by
        intro q hq he
        have : id ∈ rest.map Prod.fst := he ▸ List.mem_map_of_mem Prod.fst hq
        exact (List.nodup_cons.mp hnd).1 this
      rw [applyState_not_touched rest _ id hnotin]
      exact applyOneState_hit s id d hn hobj
    · have hne : p.1 ≠ id := by
        intro he
        have : id ∈ rest.map Prod.fst := by
          have := List.mem_map_of_mem Prod.fst hmem'
          simpa using this
        exact (List.nodup_cons.mp hnd).1 (he ▸ this)
      refine ih _ id d (List.nodup_cons.mp hnd).2 hmem' ?_ hobj
      rw [applyOneState_nodes]
      exact hn

theorem applyState_mono (ps : List (String × J)) :
    ∀ (s : WState) (id : String) (d : J), alookup s.decisions id = some d →
    ∃ d2, alookup (applyState s ps).decisions id = some d2 := by
  induction ps with
  | nil => intro s id d h; exact ⟨d, h⟩
  | cons p rest ih =>
    intro s id d h
    rw [applyState_foldl, List.foldl_cons, ← applyState_foldl]
    rcases applyOneState_mono s p.1 p.2 id d h with ⟨d2, hd2⟩
    exact ih _ id d2 hd2

/-- C3: applying patch P1 then patch P2 to the Decision Store gives: P2's
entries verbatim (last write wins, full replacement), P1's entries for ids P2
does not touch, the prior store for untouched ids (so disjoint patches yield
the union), and no apply operation ever removes an existing entry. -/
theorem c3_apply_union_lww_monotone (s : WState) (P1 P2 : List (String × J))
    (hnd1 : (P1.map Prod.fst).Nodup) (hnd2 : (P2.map Prod.fst).Nodup)
    (hP1 : ∀ p ∈ P1, ahas s.nodes p.1 = true ∧ p.2.isObj = true)
    (hP2 : ∀ p ∈ P2, ahas s.nodes p.1 = true ∧ p.2.isObj = true) :
    (∀ id d, (id, d) ∈ P2 →
      alookup (applyState (applyState s P1) P2).decisions id = some d) ∧
    (∀ id d, (id, d) ∈ P1 → (∀ p ∈ P2, p.1 ≠ id) →
      alookup (applyState (applyState s P1) P2).decisions id = some d) ∧
    (∀ id, (∀ p ∈ P1, p.1 ≠ id) → (∀ p ∈ P2, p.1 ≠ id) →
      alookup (applyState (applyState s P1) P2).decisions id = alookup s.decisions id) ∧
    (∀ (P : List (String × J)) (id : String) (d : J), alookup s.decisions id = some d →
      ∃ d2, alookup (applyState s P).decisions id = some d2) := by
  refine ⟨?_, ?_, ?_, ?_⟩
  · intro id d hmem
    refine applyState_last_entry P2 _ id d hnd2 hmem ?_ (hP2 (id, d) hmem).2
    rw [applyState_nodes]
    exact (hP2 (id, d) hmem).1
  · intro id d hmem hnt
    rw [applyState_not_touched P2 _ id hnt]
    exact applyState_last_entry P1 s id d hnd1 hmem (hP1 (id, d) hmem).1
      (hP1 (id, d) hmem).2
  · intro id h1 h2
    rw [applyState_not_touched P2 _ id h2, applyState_not_touched P1 s id h1]
  · intro P id d h
    exact applyState_mono P s id d h

/-- A small concrete record used by the traversal and apply witnesses. -/
def wRec (nid : String) (cids : List String) (pid : Option String) (dep : Nat) : NodeRec :=
  { id := nid, name := nid, type := "FRAME", parentId := pid, depth := dep,
    childIds := cids, facts := J.obj [] }

/-- A small concrete state used by the traversal and apply witnesses. -/
def c3State : WState :=
  { uiSystem := "UIKit", rootId := "r",
    nodes := [("r", wRec "r" ["a"] none 0), ("a", wRec "a" [] (some "r") 1)],
    bfs := ["r", "a"], decisions := [] }

/-- A concrete decision object. -/
def c3Dec (b : String) : J := J.obj [("component", J.obj [("base", J.str b)])]

/-- C3 witness: applying [("r", UIView-decision)] then [("a", UILabel-decision)]
stores both entries. -/
theorem c3_apply_union_lww_monotone_witness :
    alookup (applyState (applyState c3State [("r", c3Dec "UIView")])
      [("a", c3Dec "UILabel")]).decisions "a" = some (c3Dec "UILabel") ∧
    alookup (applyState (applyState c3State [("r", c3Dec "UIView")])
      [("a", c3Dec "UILabel")]).decisions "r" = some (c3Dec "UIView") := by
  have h := c3_apply_union_lww_monotone c3State [("r", c3Dec "UIView")]
    [("a", c3Dec "UILabel")] (by decide) (by decide)
    (by intro p hp; rcases List.mem_singleton.mp hp with rfl; exact ⟨by decide, by decide⟩)
    (by intro p hp; rcases List.mem_singleton.mp hp with rfl; exact ⟨by decide, by decide⟩)
  refine ⟨h.1 "a" (c3Dec "UILabel") (List.mem_singleton.mpr rfl), ?_⟩
  refine h.2.1 "r" (c3Dec "UIView") (List.mem_singleton.mpr rfl) ?_
  intro p hp
  rcases List.mem_singleton.mp hp with rfl
  decide

theorem find?_first {α : Type} {p : α → Bool} {l : List α} {a : α}
    (h : l.find? p = some a) :
    ∃ l1 l2, l = l1 ++ a :: l2 ∧ (∀ y ∈ l1, p y = false) ∧ p a = true := by
  induction l with
  | nil => simp [List.find?] at h
  | cons x rest ih =>
    rcases hx : p x with hf | ht
    · rw [List.find?_cons_of_neg _ (by simp [hx])] at h
      rcases ih h with ⟨l1, l2, heq, hl1, hpa⟩
      exact ⟨x :: l1, l2, by rw [heq]; rfl,
        by intro y hy; rcases List.mem_cons.mp hy with rfl | hy2; exact hx; exact hl1 y hy2, hpa⟩
    · rw [List.find?_cons_of_pos _ hx] at h
      cases h
      exact ⟨[], rest, rfl, by intro y hy; simp at hy, hx⟩

theorem length_filter_le_of_imp {α : Type} {l : List α} {p p' : α → Bool}
    (h : ∀ x ∈ l, p' x = true → p x = true) :
    (l.filter p').length ≤ (l.filter p).length := by
  induction l with
  | nil => simp
  | cons x rest ih =>
    have ihr := ih (fun y hy => h y (List.mem_cons_of_mem _ hy))
    rcases hx' : p' x with _ | _
    · simp only [List.filter_cons, hx', Bool.false_eq_true,
        if_neg (by simp : ¬(false = true))]
      rcases hx : p x with _ | _
      · simp only [hx, Bool.false_eq_true, if_neg (by simp : ¬(false = true))]
        exact ihr
      · simp only [hx, if_pos rfl, List.length_cons]
        exact Nat.le_succ_of_le ihr
    · have hx : p x = true := h x (List.mem_cons_self x rest) hx'
      simp only [List.filter_cons, hx', hx, if_pos rfl, List.length_cons]
      exact Nat.succ_le_succ ihr

theorem length_filter_lt_of_flip {α : Type} {l : List α} {p p' : α → Bool} {a : α}
    (hmem : a ∈ l) (hpa : p a = true) (hp'a : p' a = false)
    (himp : ∀ x ∈ l, p' x = true → p x = true) :
    (l.filter p').length < (l.filter p).length := by
  induction l with
  | nil => simp at hmem
  | cons x rest ih =>
    by_cases hxa : p x = true
    · simp only [List.filter_cons, hxa, if_pos rfl]
      rcases hx' : p' x with hf | ht
      · simp only [Bool.false_eq_true, if_neg (by simp : ¬(false = true))]
        rcases List.mem_cons.mp hmem with rfl | hmem'
        · calc (rest.filter p').length
              ≤ (rest.filter p).length :=
                length_filter_le_of_imp (fun y hy => himp y (List.mem_cons_of_mem _ hy))
            _ < (rest.filter p).length + 1 := Nat.lt_succ_self _
        · exact Nat.lt_succ_of_lt (ih hmem'
            (fun y hy => himp y (List.mem_cons_of_mem _ hy)))
      · simp only [if_pos rfl, List.length_cons]
        rcases List.mem_cons.mp hmem with rfl | hmem'
        · exact absurd hx' (by simp [hp'a])
        · exact Nat.succ_lt_succ (ih hmem'
            (fun y hy => himp y (List.mem_cons_of_mem _ hy)))
    · have hx' : p' x = false := by
        rcases hpx' : p' x with hf | ht
        · rfl
        · exact absurd (himp x (List.mem_cons_self x rest) hpx') hxa
      simp only [List.filter_cons, hx', hxa, Bool.false_eq_true,
        if_neg (by simp : ¬(false = true))]
      rcases List.mem_cons.mp hmem with rfl | hmem'
      · exact absurd hpa hxa
      · exact ih hmem' (fun y hy => himp y (List.mem_cons_of_mem _ hy))

/-- One workflow cycle: read the next undecided node and apply the external
decision f supplies for it (a no-op once next signals done). -/
def cycleOnce (f : String → J) (s : WState) : WState :=
  match nextNodeId s with
  | none => s
  | some nid => applyState s [(nid, f nid)]

/-- The number of undecided entries of the breadth-first order. -/
def undecidedCount (s : WState) : Nat :=
  (s.bfs.filter (fun nid => !ahas s.decisions nid)).length

theorem nextNodeId_ne_of_decided {s : WState} {nid : String}
    (h : ahas s.decisions nid = true) : nextNodeId s ≠ some nid := by
  intro hfind
  have hp := List.find?_some hfind
  simp only [Bool.and_eq_true, Bool.not_eq_true'] at hp
  rw [h] at hp
  exact absurd hp.2 (by simp)

theorem cycleOnce_bfs (f : String → J) (s : WState) : (cycleOnce f s).bfs = s.bfs := by
  unfold cycleOnce
  rcases nextNodeId s with _ | nid
  · rfl
  · exact applyState_bfs _ s

theorem cycleOnce_nodes (f : String → J) (s : WState) :
    (cycleOnce f s).nodes = s.nodes := by
  unfold cycleOnce
  rcases nextNodeId s with _ | nid
  · rfl
  · exact applyState_nodes _ s

theorem undecidedCount_cycleOnce_lt (f : String → J) (s : WState) (nid : String)
    (hnext : nextNodeId s = some nid)
    (hwf : ∀ y ∈ s.bfs, y ≠ "" ∧ ahas s.nodes y = true)
    (hobj : ∀ y, (f y).isObj = true) :
    undecidedCount (cycleOnce f s) < undecidedCount s := by
  have hmem : nid ∈ s.bfs := List.mem_of_find?_eq_some hnext
  have hp := List.find?_some hnext
  simp only [Bool.and_eq_true, Bool.not_eq_true'] at hp
  have hcyc : cycleOnce f s = applyState s [(nid, f nid)] := by
    unfold cycleOnce; rw [hnext]
  unfold undecidedCount
  rw [hcyc, applyState_bfs]
  have hit : alookup (applyState s [(nid, f nid)]).decisions nid = some (f nid) := by
    have := applyOneState_hit s nid (f nid) (hwf nid hmem).2 (hobj nid)
    rw [applyState_foldl]
    simpa using this
  refine length_filter_lt_of_flip hmem ?_ ?_ ?_
  · simp [hp.2]
  · simp [ahas, hit]
  · intro y hy hdy
    simp only [Bool.not_eq_true'] at hdy ⊢
    by_cases hyn : y = nid
    · subst hyn
      simp [ahas, hit] at hdy
    · rw [applyState_foldl] at hdy
      have hother := applyOneState_other s nid (f nid) y hyn
      simp only [List.foldl_cons, List.foldl_nil] at hdy
      rw [ahas] at hdy ⊢
      rw [hother] at hdy
      exact hdy

theorem next_done_of_no_undecided {s : WState}
    (hwf : ∀ y ∈ s.bfs, y ≠ "" ∧ ahas s.nodes y = true)
    (hu : undecidedCount s = 0) : nextNodeId s = none := by
  rw [nextNodeId, List.find?_eq_none]
  intro y hy
  simp only [Bool.and_eq_true, Bool.not_eq_true', bne_iff_ne, not_and]
  intro _
  unfold undecidedCount at hu
  rw [List.length_eq_zero] at hu
  have := List.filter_eq_nil_iff.mp hu y hy
  simpa using this

theorem cycles_reach_done (f : String → J)
    (hobj : ∀ y, (f y).isObj = true) :
    ∀ (n : Nat) (s : WState), (∀ y ∈ s.bfs, y ≠ "" ∧ ahas s.nodes y = true) →
    undecidedCount s ≤ n → nextNodeId ((cycleOnce f)^[n] s) = none := by
  intro n
  induction n with
  | zero =>
    intro s hwf hu
    exact next_done_of_no_undecided hwf (Nat.le_zero.mp hu)
  | succ n ih =>
    intro s hwf hu
    rw [Function.iterate_succ_apply]
    rcases hnext : nextNodeId s with _ | nid
    · have hs : cycleOnce f s = s := by unfold cycleOnce; rw [hnext]
      rw [hs]
      refine ih s hwf ?_
      have hzero : undecidedCount s = 0 := by
        unfold undecidedCount
        rw [List.length_eq_zero, List.filter_eq_nil_iff]
        intro y hy
        have hnone := List.find?_eq_none.mp hnext y hy
        simp only [Bool.and_eq_true, not_and, Bool.not_eq_true'] at hnone
        have hyne : (y != "") = true := by simp [bne_iff_ne, (hwf y hy).1]
        simp [hnone hyne]
      omega
    · have hwf2 : ∀ y ∈ (cycleOnce f s).bfs, y ≠ "" ∧ ahas (cycleOnce f s).nodes y = true := by
        rw [cycleOnce_bfs, cycleOnce_nodes]
        exact hwf
      refine ih _ hwf2 ?_
      have := undecidedCount_cycleOnce_lt f s nid hnext hwf hobj
      omega

/-- C1: the traversal cursor returns the first id of the immutable
breadth-first order with no Decision Store entry; it signals done exactly
when every id in the order has an entry; after the decision an external
agent supplies for the returned id is applied, no later next (through any
further patches) returns that id again; and after |nodes| cycles of
next-then-apply the cursor signals done. -/
theorem c1_cursor_first_undecided_progress_done (s : WState) (f : String → J)
    (hwf : ∀ nid ∈ s.bfs, nid ≠ "" ∧ ahas s.nodes nid = true)
    (hobj : ∀ nid, (f nid).isObj = true)
    (hnd : s.bfs.Nodup) (hknd : (s.nodes.map Prod.fst).Nodup)
    (hcov : ∀ k ∈ s.nodes.map Prod.fst, k ∈ s.bfs) :
    (∀ nid, nextNodeId s = some nid →
      ∃ l1 l2, s.bfs = l1 ++ nid :: l2 ∧ (∀ y ∈ l1, ahas s.decisions y = true) ∧
        ahas s.decisions nid = false) ∧
    (nextIsDone s = true ↔ ∀ nid ∈ s.bfs, ahas s.decisions nid = true) ∧
    (∀ nid ps, nextNodeId s = some nid →
      nextNodeId (applyState (applyState s [(nid, f nid)]) ps) ≠ some nid) ∧
    nextIsDone ((cycleOnce f)^[s.nodes.length] s) = true := by
  refine ⟨?_, ?_, ?_, ?_⟩
  · intro nid hnext
    rcases find?_first hnext with ⟨l1, l2, heq, hl1, hpnid⟩
    refine ⟨l1, l2, heq, ?_, ?_⟩
    · intro y hy
      have hyb : y ∈ s.bfs := by rw [heq]; exact List.mem_append_left _ hy
      have := hl1 y hy
      simp only [Bool.and_eq_true, Bool.not_eq_true'] at this
      rcases hd : ahas s.decisions y with _ | _
      · exfalso
        have hyne : (y != "") = true := by simp [bne_iff_ne, (hwf y hyb).1]
        rw [Bool.and_eq_false_iff] at this
        rcases this with h1 | h2
        · rw [hyne] at h1; exact absurd h1 (by simp)
        · rw [hd] at h2; exact absurd h2 (by simp)
      · rfl
    · have := List.find?_some hnext
      simp only [Bool.and_eq_true, Bool.not_eq_true'] at this
      exact this.2
  · constructor
    · intro hdone nid hnid
      unfold nextIsDone at hdone
      rcases hnext : nextNodeId s with _ | mid
      · have := List.find?_eq_none.mp hnext nid hnid
        simp only [Bool.and_eq_true, not_and, Bool.not_eq_true'] at this
        have hyne : (nid != "") = true := by simp [bne_iff_ne, (hwf nid hnid).1]
        simpa using this hyne
      · rw [hnext] at hdone
        simp only at hdone
        have hmemb : mid ∈ s.bfs := List.mem_of_find?_eq_some hnext
        exact absurd hdone (by simp [(hwf mid hmemb).1])
    · intro hall
      unfold nextIsDone
      have : nextNodeId s = none := by
        rw [nextNodeId, List.find?_eq_none]
        intro y hy
        simp [hall y hy]
      rw [this]
  · intro nid ps hnext
    have hmem : nid ∈ s.bfs := List.mem_of_find?_eq_some hnext
    have hn : ahas s.nodes nid = true := (hwf nid hmem).2
    have hit : alookup (applyState s [(nid, f nid)]).decisions nid = some (f nid) := by
      rw [applyState_foldl]
      simpa using applyOneState_hit s nid (f nid) hn (hobj nid)
    rcases applyState_mono ps _ nid (f nid) hit with ⟨d2, hd2⟩
    exact nextNodeId_ne_of_decided (by simp [ahas, hd2])
  · have hlen : s.nodes.length = s.bfs.length := by
      have hperm : (s.nodes.map Prod.fst).Perm s.bfs := by
        rw [List.perm_ext_iff_of_nodup hknd hnd]
        intro a
        constructor
        · exact hcov a
        · intro ha
          have := (hwf a ha).2
          simp only [ahas, Option.isSome_iff_exists] at this
          rcases this with ⟨r, hr⟩
          have := alookup_some_mem_keys hr
          exact this
      have := hperm.length_eq
      simpa using this
    have hdone := cycles_reach_done f hobj s.nodes.length s hwf
      (by
        have : undecidedCount s ≤ s.bfs.length := by
          unfold undecidedCount
          simpa using List.length_filter_le _ _
        omega)
    unfold nextIsDone
    rw [hdone]

/-- C1 witness: on the two-node state, two cycles reach done, and next first
returns the root. -/
theorem c1_cursor_witness :
    nextIsDone ((cycleOnce (fun _ => c3Dec "UIView"))^[c3State.nodes.length] c3State) = true ∧
    nextNodeId (applyState (applyState c3State [("r", c3Dec "UIView")]) []) ≠ some "r" := by
  have h := c1_cursor_first_undecided_progress_done c3State (fun _ => c3Dec "UIView")
    (by intro nid hn
        have hne : nid = "r" ∨ nid = "a" := by simpa [c3State] using hn
        rcases hne with rfl | rfl <;> exact ⟨by decide, by decide⟩)
    (fun _ => rfl) (by decide) (by decide) (by decide)
  refine ⟨h.2.2.2, ?_⟩
  have := h.2.2.1 "r" [] (by decide)
  simpa using this

/-- Membership in the error component of an accumulating validator fold. -/
theorem mem_foldl_append_fst {α β γ : Type} (f : α → List β × List γ)
    (l : List α) (a : List β × List γ) (x : β) :
    x ∈ (l.foldl (fun acc kv => (acc.1 ++ (f kv).1, acc.2 ++ (f kv).2)) a).1 ↔
      x ∈ a.1 ∨ ∃ kv ∈ l, x ∈ (f kv).1 := by
  induction l generalizing a with
  | nil => simp
  | cons hd tl ih =>
    rw [List.foldl_cons, ih]
    constructor
    · rintro (hx | ⟨kv, hkv, hx⟩)
      · rcases List.mem_append.mp hx with h1 | h2
        · exact Or.inl h1
        · exact Or.inr ⟨hd, List.mem_cons_self hd tl, h2⟩
      · exact Or.inr ⟨kv, List.mem_cons_of_mem hd hkv, hx⟩
    · rintro (hx | ⟨kv, hkv, hx⟩)
      · exact Or.inl (List.mem_append.mpr (Or.inl hx))
      · rcases List.mem_cons.mp hkv with rfl | htl
        · exact Or.inl (List.mem_append.mpr (Or.inr hx))
        · exact Or.inr ⟨kv, htl, hx⟩

/-- Membership in the warning component of an accumulating validator fold. -/
theorem mem_foldl_append_snd {α β γ : Type} (f : α → List β × List γ)
    (l : List α) (a : List β × List γ) (x : γ) :
    x ∈ (l.foldl (fun acc kv => (acc.1 ++ (f kv).1, acc.2 ++ (f kv).2)) a).2 ↔
      x ∈ a.2 ∨ ∃ kv ∈ l, x ∈ (f kv).2 := by
  induction l generalizing a with
  | nil => simp
  | cons hd tl ih =>
    rw [List.foldl_cons, ih]
    constructor
    · rintro (hx | ⟨kv, hkv, hx⟩)
      · rcases List.mem_append.mp hx with h1 | h2
        · exact Or.inl h1
        · exact Or.inr ⟨hd, List.mem_cons_self hd tl, h2⟩
      · exact Or.inr ⟨kv, List.mem_cons_of_mem hd hkv, hx⟩
    · rintro (hx | ⟨kv, hkv, hx⟩)
      · exact Or.inl (List.mem_append.mpr (Or.inl hx))
      · rcases List.mem_cons.mp hkv with rfl | htl
        · exact Or.inl (List.mem_append.mpr (Or.inr hx))
        · exact Or.inr ⟨kv, htl, hx⟩

/-- A fold whose step preserves a predicate on every error item preserves it
globally. -/
theorem foldl_fst_inv {α β γ : Type} (g : List β × γ → α → List β × γ)
    (P : β → Prop)
    (hg : ∀ acc kv, (∀ x ∈ acc.1, P x) → ∀ x ∈ (g acc kv).1, P x) (l : List α) :
    ∀ a, (∀ x ∈ a.1, P x) → ∀ x ∈ (l.foldl g a).1, P x := by
  induction l with
  | nil => intro a ha; exact ha
  | cons hd tl ih => intro a ha; exact ih _ (hg a hd ha)

/-- A node with no Decision Store entry gets exactly one missing_decision
warning and no error from the shape pass. -/
theorem validateNodeShape_missing (ui : String) (dec : List (String × J)) (nid : String)
    (h : alookup dec nid = none) :
    validateNodeShape ui dec nid = ([], [⟨nid, "missing_decision", none⟩]) := by
  unfold validateNodeShape
  rw [h]

set_option maxHeartbeats 2000000 in
/-- Every error the shape pass emits for a node carries that node's id, and
only decided nodes get shape errors. -/
theorem validateNodeShape_err_decided (ui : String) (dec : List (String × J)) (nid : String)
    (x : VItem) (hx : x ∈ (validateNodeShape ui dec nid).1) :
    x.nodeId = nid ∧ alookup dec nid ≠ none := by
  rcases h : alookup dec nid with _ | d
  · rw [validateNodeShape_missing ui dec nid h] at hx
    simp at hx
  · refine ⟨?_, by simp [h]⟩
    unfold validateNodeShape at hx
    rw [h] at hx
    rcases d with _ | b | q | s2 | es | kvs
    · simp at hx
    · simp only [J.isObj, Bool.not_false, if_true] at hx
      simp at hx
      rw [hx]
    · simp only [J.isObj, Bool.not_false, if_true] at hx
      simp at hx
      rw [hx]
    · simp only [J.isObj, Bool.not_false, if_true] at hx
      simp at hx
      rw [hx]
    · simp only [J.isObj, Bool.not_false, if_true] at hx
      simp at hx
      rw [hx]
    · simp only [J.isObj, Bool.not_true, Bool.false_eq_true, if_false, J.get] at hx
      rcases hc : alookup kvs "component" with _ | c
      · rw [hc] at hx
        simp at hx
        rw [hx]
      · rw [hc] at hx
        rcases c with _ | b2 | q2 | s3 | es2 | ckvs
        all_goals first
        | (simp at hx; rw [hx])
        | (simp only [List.mem_append] at hx
           rcases hx with ((hx | hx) | hx) | hx <;>
             (repeat' split at hx) <;>
             (try simp_all [J.asStr]) <;>
             (try (rcases hx with rfl | rfl <;> rfl)) <;>
             (try (rcases hx with rfl | rfl | rfl <;> rfl)))

/-- Every error the structural pass emits targets a node that has a Decision
Store entry (a child with no decision only ever gets warnings). -/
theorem validateStructural_err_decided (ui : String) (dec : List (String × J))
    (nid : String) (r : NodeRec) (x : VItem)
    (hx : x ∈ (validateStructural ui dec nid r).1) :
    alookup dec x.nodeId ≠ none := by
  have hP : ∀ cid e, baseComponentFromDecision (alookup dec cid) = some e →
      alookup dec cid ≠ none := by
    intro cid e hb hnone
    rw [hnone] at hb
    exact absurd hb (by simp [baseComponentFromDecision])
  have hkeep : ∀ (must : String),
      ∀ acc kv, (∀ y ∈ (acc : List VItem × List VItem).1, alookup dec y.nodeId ≠ none) →
      ∀ y ∈ ((match baseComponentFromDecision (alookup dec kv) with
        | none => (acc.1, acc.2 ++ [⟨kv, "child_missing_decision_under_list_container",
            some (J.obj [("parent", J.str nid), ("mustBe", J.str must)])⟩])
        | some cbase =>
          if cbase ≠ must then
            (acc.1 ++ [⟨kv, "child_component_must_be_cell",
              some (J.obj [("parent", J.str nid), ("mustBe", J.str must),
                ("actual", J.str cbase)])⟩], acc.2)
          else acc) : List VItem × List VItem).1, alookup dec y.nodeId ≠ none := by
    intro must acc kv hacc y hy
    rcases hb : baseComponentFromDecision (alookup dec kv) with _ | cbase
    · simp only [hb] at hy
      exact hacc y hy
    · simp only [hb] at hy
      split at hy
      · simp only [List.mem_append, List.mem_singleton] at hy
        rcases hy with h1 | h1
        · exact hacc y h1
        · rw [h1]
          exact hP kv cbase hb
      · exact hacc y hy
  simp only [validateStructural] at hx
  split at hx
  · simp at hx
  · split at hx
    · rcases List.mem_append.mp hx with hx | hx
      · split at hx
        · exact foldl_fst_inv _ (fun y => alookup dec y.nodeId ≠ none)
            (hkeep _) r.childIds ([], []) (by simp) x hx
        · simp at hx
      · split at hx
        · exact foldl_fst_inv _ (fun y => alookup dec y.nodeId ≠ none)
            (by
              intro acc kv hacc y hy
              rcases hb : baseComponentFromDecision (alookup dec kv) with _ | cbase
              · simp only [hb] at hy
                exact hacc y hy
              · simp only [hb] at hy
                split at hy
                · exact hacc y hy
                · exact hacc y hy) r.childIds ([], []) (by simp) x hx
        · simp at hx
    · split at hx
      · rcases List.mem_append.mp hx with hx | hx
        · split at hx
          · exact foldl_fst_inv _ (fun y => alookup dec y.nodeId ≠ none)
              (by
              intro acc kv hacc y hy
              rcases hb : baseComponentFromDecision (alookup dec kv) with _ | cbase
              · simp only [hb] at hy
                exact hacc y hy
              · simp only [hb] at hy
                split at hy
                · exact hacc y hy
                · exact hacc y hy) r.childIds ([], []) (by simp) x hx
          · simp at hx
        · split at hx
          · exact foldl_fst_inv _ (fun y => alookup dec y.nodeId ≠ none)
              (by
              intro acc kv hacc y hy
              rcases hb : baseComponentFromDecision (alookup dec kv) with _ | cbase
              · simp only [hb] at hy
                exact hacc y hy
              · simp only [hb] at hy
                split at hy
                · exact hacc y hy
                · exact hacc y hy) r.childIds ([], []) (by simp) x hx
          · simp at hx
      · simp at hx

/-- C9: validate reports ok = true exactly when its error list is empty; the
exit status is non-zero exactly when an error is present; a node with no
recorded decision contributes only a missing_decision warning from the shape
pass and that warning reaches the output; no error item ever targets an
undecided node; and with an empty Decision Store (all decisions missing)
validate still reports ok. -/
theorem c9_validate_ok_iff_no_errors (s : WState) :
    ((cmdValidate s).ok = true ↔ (cmdValidate s).errors = []) ∧
    ((cmdValidate s).exitCode ≠ 0 ↔ (cmdValidate s).errors ≠ []) ∧
    (∀ nid, alookup s.decisions nid = none →
      validateNodeShape s.uiSystem s.decisions nid =
        ([], [⟨nid, "missing_decision", none⟩])) ∧
    (∀ nid r, (nid, r) ∈ s.nodes → alookup s.decisions nid = none →
      (⟨nid, "missing_decision", none⟩ : VItem) ∈ (cmdValidate s).warnings) ∧
    (∀ x ∈ (cmdValidate s).errors, alookup s.decisions x.nodeId ≠ none) ∧
    (s.decisions = [] → (cmdValidate s).ok = true) := by
  have herrred : (cmdValidate s).errors =
      (s.nodes.foldl (fun acc kv =>
        (acc.1 ++ (validateStructural s.uiSystem s.decisions kv.1 kv.2).1,
         acc.2 ++ (validateStructural s.uiSystem s.decisions kv.1 kv.2).2))
        (s.nodes.foldl (fun acc kv =>
          (acc.1 ++ (validateNodeShape s.uiSystem s.decisions kv.1).1,
           acc.2 ++ (validateNodeShape s.uiSystem s.decisions kv.1).2))
          (([], []) : List VItem × List VItem))).1 := rfl
  have hwarnred : (cmdValidate s).warnings =
      (s.nodes.foldl (fun acc kv =>
        (acc.1 ++ (validateStructural s.uiSystem s.decisions kv.1 kv.2).1,
         acc.2 ++ (validateStructural s.uiSystem s.decisions kv.1 kv.2).2))
        (s.nodes.foldl (fun acc kv =>
          (acc.1 ++ (validateNodeShape s.uiSystem s.decisions kv.1).1,
           acc.2 ++ (validateNodeShape s.uiSystem s.decisions kv.1).2))
          (([], []) : List VItem × List VItem))).2 := rfl
  have hok : (cmdValidate s).ok = (cmdValidate s).errors.isEmpty := rfl
  have hexit : (cmdValidate s).exitCode =
      (if (cmdValidate s).errors.isEmpty then 0 else 1) := rfl
  have h1 : (cmdValidate s).ok = true ↔ (cmdValidate s).errors = [] := by
    rw [hok]
    exact List.isEmpty_iff
  have h5 : ∀ x ∈ (cmdValidate s).errors, alookup s.decisions x.nodeId ≠ none := by
    intro x hx
    rw [herrred] at hx
    rw [mem_foldl_append_fst] at hx
    rcases hx with hx | ⟨kv, hkv, hx⟩
    · rw [mem_foldl_append_fst] at hx
      rcases hx with hx | ⟨kv, hkv, hx⟩
      · simp at hx
      · have hd := validateNodeShape_err_decided s.uiSystem s.decisions kv.1 x hx
        rw [hd.1]
        exact hd.2
    · exact validateStructural_err_decided s.uiSystem s.decisions kv.1 kv.2 x hx
  refine ⟨h1, ?_, ?_, ?_, h5, ?_⟩
  · constructor
    · intro hne hnil
      rw [hexit, hnil] at hne
      simp at hne
    · intro hne
      rw [hexit]
      have hfalse : (cmdValidate s).errors.isEmpty = false := by
        rcases h : (cmdValidate s).errors with _ | ⟨a, l⟩
        · exact absurd h hne
        · rfl
      rw [hfalse]
      simp
  · intro nid hnone
    exact validateNodeShape_missing s.uiSystem s.decisions nid hnone
  · intro nid r hmem hnone
    rw [hwarnred]
    rw [mem_foldl_append_snd]
    left
    rw [mem_foldl_append_snd]
    right
    refine ⟨(nid, r), hmem, ?_⟩
    rw [validateNodeShape_missing s.uiSystem s.decisions nid hnone]
    simp
  · intro hdec
    have hnil : (cmdValidate s).errors = [] := by
      rw [List.eq_nil_iff_forall_not_mem]
      intro x hx
      have := h5 x hx
      rw [hdec] at this
      exact this rfl
    exact h1.mpr hnil

/-- C9 witness: on the two-node state with an empty Decision Store, validate
reports ok with both missing decisions surfaced as warnings only. -/
theorem c9_validate_witness :
    (cmdValidate c3State).ok = true ∧
    (⟨"r", "missing_decision", none⟩ : VItem) ∈ (cmdValidate c3State).warnings := by
  have h := c9_validate_ok_iff_no_errors c3State
  exact ⟨h.2.2.2.2.2 rfl,
    h.2.2.2.1 "r" (wRec "r" ["a"] none 0) (by simp [c3State]) rfl⟩

theorem alookup_append_some {α : Type} {m : List (String × α)} (m2 : List (String × α))
    {k : String} {r : α} (h : alookup m k = some r) : alookup (m ++ m2) k = some r := by
  induction m with
  | nil => simp [alookup] at h
  | cons kv rest ih =>
    rcases kv with ⟨k2, v⟩
    simp only [alookup] at h
    simp only [List.cons_append, alookup]
    by_cases hk : k2 = k
    · simpa [hk] using h
    · rw [if_neg hk] at h ⊢
      exact ih h

mutual
/-- visit never emits a stderr line: the warning component of the state is
passed through unchanged by every branch, including the duplicate branch. -/
theorem visit_snd (inc : Bool) (mtl : Int) : ∀ (n : RawNode) (p : Option String)
    (d : Nat) (st : NodeMap × List String), (visit inc mtl n p d st).2 = st.2
  | .node fields cs, p, d, st => by
    rw [visit]
    by_cases hinc : shouldIncludeNode inc (.node fields cs) = true
    · simp only [hinc, Bool.not_true, Bool.false_eq_true, if_false]
      rcases hraw : rawId (.node fields cs) with _ | nodeId
      · simp only [hraw]
      · simp only [hraw]
        by_cases hdup : ahas st.1 nodeId = true
        · simp only [hdup, if_true]
        · simp only [Bool.not_eq_true] at hdup
          simp only [hdup, Bool.false_eq_true, if_false]
          rw [visitList_snd inc mtl cs (some nodeId) (d + 1) _]
    · simp only [Bool.not_eq_true] at hinc
      simp only [hinc, Bool.not_false, if_true]

/-- The child loop of visit never emits a stderr line. -/
theorem visitList_snd (inc : Bool) (mtl : Int) : ∀ (l : List RawNode) (p : Option String)
    (d : Nat) (st : NodeMap × List String), (visitList inc mtl l p d st).2 = st.2
  | [], _, _, st => rfl
  | c :: rest, p, d, st => by
    rw [visitList]
    rw [visitList_snd inc mtl rest p d _]
    rw [visit_snd inc mtl c p d st]
end

mutual
/-- visit never overwrites an existing node-map entry: the first-stored record
for an id survives every later visit (duplicates keep the first occurrence). -/
theorem visit_keeps (inc : Bool) (mtl : Int) : ∀ (n : RawNode) (p : Option String)
    (d : Nat) (st : NodeMap × List String) (k : String) (r : NodeRec),
    alookup st.1 k = some r → alookup (visit inc mtl n p d st).1 k = some r
  | .node fields cs, p, d, st, k, r => fun h => by
    rw [visit]
    by_cases hinc : shouldIncludeNode inc (.node fields cs) = true
    · simp only [hinc, Bool.not_true, Bool.false_eq_true, if_false]
      rcases hraw : rawId (.node fields cs) with _ | nodeId
      · simp only [hraw]
        exact h
      · simp only [hraw]
        by_cases hdup : ahas st.1 nodeId = true
        · simp only [hdup, if_true]
          exact h
        · simp only [Bool.not_eq_true] at hdup
          simp only [hdup, Bool.false_eq_true, if_false]
          exact visitList_keeps inc mtl cs (some nodeId) (d + 1) _ k r
            (alookup_append_some _ h)
    · simp only [Bool.not_eq_true] at hinc
      simp only [hinc, Bool.not_false, if_true]
      exact h

/-- The child loop of visit never overwrites an existing node-map entry. -/
theorem visitList_keeps (inc : Bool) (mtl : Int) : ∀ (l : List RawNode)
    (p : Option String) (d : Nat) (st : NodeMap × List String) (k : String) (r : NodeRec),
    alookup st.1 k = some r → alookup (visitList inc mtl l p d st).1 k = some r
  | [], _, _, st, k, r => fun h => h
  | c :: rest, p, d, st, k, r => fun h => by
    rw [visitList]
    exact visitList_keeps inc mtl rest p d _ k r (visit_keeps inc mtl c p d st k r h)
end

/-- A concrete tree whose root has two children that share the id "B": the
first occurrence is named "first" and has the descendant "D", the second is
named "second" and has the descendant "E". -/
def c7Tree : RawNode :=
  .node [("id", J.str "R"), ("name", J.str "Root"), ("type", J.str "FRAME")] [
    .node [("id", J.str "B"), ("name", J.str "first"), ("type", J.str "FRAME")] [
      .node [("id", J.str "D"), ("name", J.str "d"), ("type", J.str "TEXT")] []],
    .node [("id", J.str "B"), ("name", J.str "second"), ("type", J.str "FRAME")] [
      .node [("id", J.str "E"), ("name", J.str "e"), ("type", J.str "TEXT")] []]]

/-- C7 counterexample: indexing c7Tree keeps the first "B" (name "first") and
discards the second occurrence and its descendant "E", but the emitted
warning list is empty: no warning accompanies the discard, and indexing
still succeeds. -/
theorem c7_counterexample_duplicate_discarded_without_warning :
    ∃ m warns, indexTree c7Tree false (-1) = .ok ("R", (m, warns)) ∧
      warns = [] ∧
      ((alookup m "B").map NodeRec.name) = some "first" ∧
      ahas m "D" = true ∧ ahas m "E" = false := by
  refine ⟨(visit false (-1) c7Tree none 0 ([], [])).1,
          (visit false (-1) c7Tree none 0 ([], [])).2, rfl, rfl, rfl, rfl, rfl⟩

/-- C7: the duplicate branch of visit returns the state untouched (the later
occurrence and its descendants are discarded and, contrary to the claim, no
warning is emitted anywhere during indexing: the warning component stays
empty); the first-stored record for an id is never overwritten; and indexing
never fails once the root has a non-empty string id. -/
theorem c7_duplicate_first_kept_silent (inc : Bool) (mtl : Int) :
    (∀ n p d st, (visit inc mtl n p d st).2 = st.2) ∧
    (∀ n p d st k r, alookup st.1 k = some r →
      alookup (visit inc mtl n p d st).1 k = some r) ∧
    (∀ fields cs p d st nodeId,
      shouldIncludeNode inc (.node fields cs) = true →
      rawId (.node fields cs) = some nodeId →
      ahas st.1 nodeId = true →
      visit inc mtl (.node fields cs) p d st = st) ∧
    (∀ root rootId, root.get "id" = some (J.str rootId) → rootId ≠ "" →
      ∃ m, indexTree root inc mtl = .ok (rootId, (m, []))) := by
  refine ⟨visit_snd inc mtl, visit_keeps inc mtl, ?_, ?_⟩
  · intro fields cs p d st nodeId hinc hraw hdup
    rw [visit]
    simp only [hinc, Bool.not_true, Bool.false_eq_true, if_false, hraw, hdup, if_true]
  · intro root rootId hget hne
    refine ⟨(visit inc mtl root none 0 ([], [])).1, ?_⟩
    unfold indexTree
    simp only [hget]
    rw [if_neg hne]
    have hsnd : (visit inc mtl root none 0 ([], [])).2 = [] :=
      visit_snd inc mtl root none 0 ([], [])
    rw [show visit inc mtl root none 0 ([], []) =
      ((visit inc mtl root none 0 ([], [])).1, (visit inc mtl root none 0 ([], [])).2)
      from rfl, hsnd]

/-- C7 witness: a concrete duplicate visit returns its state unchanged, and a
concrete root indexes without failing and with an empty warning list. -/
theorem c7_duplicate_first_kept_silent_witness :
    visit false (-1) (.node [("id", J.str "B")] [.node [("id", J.str "E")] []])
      (some "R") 1 ([("B", ⟨"B", "first", "FRAME", some "R", 1, [], J.obj []⟩)], []) =
      ([("B", ⟨"B", "first", "FRAME", some "R", 1, [], J.obj []⟩)], []) ∧
    ∃ m, indexTree (.node [("id", J.str "R")] []) false (-1) = .ok ("R", (m, [])) := by
  have h := c7_duplicate_first_kept_silent false (-1)
  exact ⟨h.2.2.1 [("id", J.str "B")] [.node [("id", J.str "E")] []] (some "R") 1
      ([("B", ⟨"B", "first", "FRAME", some "R", 1, [], J.obj []⟩)], []) "B" rfl rfl rfl,
    h.2.2.2 (.node [("id", J.str "R")] []) "R" rfl (by decide)⟩

mutual
/-- All node ids occurring anywhere in a raw tree, in visit order (each
node's own id, when it is a non-empty string, followed by its subtrees'). -/
def rawIdList : RawNode → List String
  | .node fields cs =>
    (match rawId (.node fields cs) with
      | some i => [i]
      | none => []) ++ rawIdsList cs

/-- All node ids occurring in a forest of raw trees. -/
def rawIdsList : List RawNode → List String
  | [] => []
  | c :: rest => rawIdList c ++ rawIdsList rest
end

theorem rawId_mem_rawIdList {n : RawNode} {i : String} (h : rawId n = some i) :
    i ∈ rawIdList n := by
  rcases n with ⟨fields, cs⟩
  simp only [rawIdList, h]
  simp

theorem mem_rawIdsList_of {l : List RawNode} {m : RawNode} (hm : m ∈ l) {i : String}
    (h : i ∈ rawIdList m) : i ∈ rawIdsList l := by
  induction l with
  | nil => cases hm
  | cons c rest ih =>
    rcases List.mem_cons.mp hm with rfl | hm2
    · simp only [rawIdsList]
      exact List.mem_append_left _ h
    · simp only [rawIdsList]
      exact List.mem_append_right _ (ih hm2)

theorem mem_topChildIds {inc : Bool} {n : RawNode} {k : String} :
    k ∈ topChildIds inc n ↔
      ∃ m ∈ n.children, shouldIncludeNode inc m = true ∧ rawId m = some k := by
  unfold topChildIds
  rw [List.mem_filterMap]
  constructor
  · rintro ⟨m, hm, hf⟩
    by_cases hi : shouldIncludeNode inc m = true
    · rw [if_pos hi] at hf
      exact ⟨m, hm, hi, hf⟩
    · rw [if_neg hi] at hf
      cases hf
  · rintro ⟨m, hm, hi, hr⟩
    refine ⟨m, hm, ?_⟩
    rw [if_pos hi]
    exact hr

theorem topChildIds_sub {inc : Bool} {fields : List (String × J)} {cs : List RawNode}
    {k : String} (h : k ∈ topChildIds inc (.node fields cs)) : k ∈ rawIdsList cs := by
  rcases mem_topChildIds.mp h with ⟨m, hm, _, hr⟩
  exact mem_rawIdsList_of hm (rawId_mem_rawIdList hr)

theorem alookup_append_single_cases {α : Type} {m : List (String × α)} {k0 k : String}
    {v0 v : α} (h : alookup (m ++ [(k0, v0)]) k = some v) :
    alookup m k = some v ∨ (alookup m k = none ∧ k = k0 ∧ v = v0) := by
  induction m with
  | nil =>
    simp only [List.nil_append, alookup] at h
    by_cases hk : k0 = k
    · rw [if_pos hk] at h
      exact Or.inr ⟨rfl, hk.symm, (Option.some.inj h).symm⟩
    · rw [if_neg hk] at h
      simp [alookup] at h
  | cons kv rest ih =>
    simp only [List.cons_append, alookup] at h ⊢
    by_cases hk : kv.1 = k
    · rw [if_pos hk] at h ⊢
      exact Or.inl h
    · rw [if_neg hk] at h ⊢
      exact ih h

theorem ahas_append_single_cases {α : Type} {m : List (String × α)} {k0 k : String}
    {v0 : α} (h : ahas (m ++ [(k0, v0)]) k = true) : ahas m k = true ∨ k = k0 := by
  rw [ahas, Option.isSome_iff_exists] at h
  rcases h with ⟨v, hv⟩
  rcases alookup_append_single_cases hv with h1 | ⟨_, h2, _⟩
  · exact Or.inl (by simp [ahas, h1])
  · exact Or.inr h2

theorem mem_rawIdList_of_children {fields : List (String × J)} {cs : List RawNode}
    {k : String} (h : k ∈ rawIdsList cs) : k ∈ rawIdList (.node fields cs) := by
  simp only [rawIdList]
  exact List.mem_append_right _ h

mutual
/-- Every id present after a visit was present before or occurs in the
visited subtree. -/
theorem visit_newkeys (inc : Bool) (mtl : Int) : ∀ (n : RawNode) (p : Option String)
    (d : Nat) (st : NodeMap × List String) (k : String),
    ahas (visit inc mtl n p d st).1 k = true → ahas st.1 k = true ∨ k ∈ rawIdList n
  | .node fields cs, p, d, st, k => fun h => by
    rw [visit] at h
    by_cases hinc : shouldIncludeNode inc (.node fields cs) = true
    · simp only [hinc, Bool.not_true, Bool.false_eq_true, if_false] at h
      rcases hraw : rawId (.node fields cs) with _ | nodeId
      · simp only [hraw] at h
        exact Or.inl h
      · simp only [hraw] at h
        by_cases hdup : ahas st.1 nodeId = true
        · simp only [hdup, if_true] at h
          exact Or.inl h
        · simp only [Bool.not_eq_true] at hdup
          simp only [hdup, Bool.false_eq_true, if_false] at h
          rcases visitList_newkeys inc mtl cs (some nodeId) (d + 1) _ k h with h1 | h1
          · rcases ahas_append_single_cases h1 with h2 | h2
            · exact Or.inl h2
            · exact Or.inr (h2 ▸ rawId_mem_rawIdList hraw)
          · exact Or.inr (mem_rawIdList_of_children h1)
    · simp only [Bool.not_eq_true] at hinc
      simp only [hinc, Bool.not_false, if_true] at h
      exact Or.inl h

/-- Every id present after a child loop was present before or occurs in the
forest. -/
theorem visitList_newkeys (inc : Bool) (mtl : Int) : ∀ (l : List RawNode)
    (p : Option String) (d : Nat) (st : NodeMap × List String) (k : String),
    ahas (visitList inc mtl l p d st).1 k = true → ahas st.1 k = true ∨ k ∈ rawIdsList l
  | [], _, _, st, k => fun h => Or.inl h
  | c :: rest, p, d, st, k => fun h => by
    rw [visitList] at h
    rcases visitList_newkeys inc mtl rest p d _ k h with h1 | h1
    · rcases visit_newkeys inc mtl c p d st k h1 with h2 | h2
      · exact Or.inl h2
      · exact Or.inr (by simpa only [rawIdsList] using List.mem_append_left _ h2)
    · exact Or.inr (by simpa only [rawIdsList] using List.mem_append_right _ h1)
end

mutual
/-- Every record added by a visit carries an id from the visited subtree, has
childIds drawn from the subtree, and has a parent pointer that is none only
for the subtree's own top node visited with no parent. -/
theorem visit_newrec (inc : Bool) (mtl : Int) : ∀ (n : RawNode) (p : Option String)
    (d : Nat) (st : NodeMap × List String) (k : String) (rk : NodeRec),
    alookup st.1 k = none → alookup (visit inc mtl n p d st).1 k = some rk →
    k ∈ rawIdList n ∧ (∀ c ∈ rk.childIds, c ∈ rawIdList n) ∧
      (rk.parentId = none → p = none ∧ rawId n = some k)
  | .node fields cs, p, d, st, k, rk => fun h0 hM => by
    rw [visit] at hM
    by_cases hinc : shouldIncludeNode inc (.node fields cs) = true
    · simp only [hinc, Bool.not_true, Bool.false_eq_true, if_false] at hM
      rcases hraw : rawId (.node fields cs) with _ | nodeId
      · simp only [hraw] at hM
        rw [h0] at hM
        cases hM
      · simp only [hraw] at hM
        by_cases hdup : ahas st.1 nodeId = true
        · simp only [hdup, if_true] at hM
          rw [h0] at hM
          cases hM
        · simp only [Bool.not_eq_true] at hdup
          simp only [hdup, Bool.false_eq_true, if_false] at hM
          rcases h1 : alookup (st.1 ++ [(nodeId,
              ({ id := nodeId
                 name := ((RawNode.node fields cs).getD "name" (J.str "")).pyStr
                 type := ((RawNode.node fields cs).getD "type" (J.str "")).pyStr
                 parentId := p
                 depth := d
                 childIds := topChildIds inc (.node fields cs)
                 facts := nodeFacts (.node fields cs) mtl } : NodeRec))]) k with _ | rk0
          · rcases visitList_newrec inc mtl cs (some nodeId) (d + 1) _ k rk h1 hM with
              ⟨hk, hc, hp⟩
            refine ⟨mem_rawIdList_of_children hk,
              fun c hcc => mem_rawIdList_of_children (hc c hcc), ?_⟩
            intro hnone
            exact absurd (hp hnone).1 (by simp)
          · have hkeep := visitList_keeps inc mtl cs (some nodeId) (d + 1)
              (st.1 ++ [(nodeId,
                ({ id := nodeId
                   name := ((RawNode.node fields cs).getD "name" (J.str "")).pyStr
                   type := ((RawNode.node fields cs).getD "type" (J.str "")).pyStr
                   parentId := p
                   depth := d
                   childIds := topChildIds inc (.node fields cs)
                   facts := nodeFacts (.node fields cs) mtl } : NodeRec))], st.2) k rk0 h1
            rw [hM] at hkeep
            cases hkeep
            rcases alookup_append_single_cases h1 with h2 | ⟨_, rfl, rfl⟩
            · rw [h0] at h2
              cases h2
            · refine ⟨rawId_mem_rawIdList hraw, ?_, ?_⟩
              · intro c hcc
                exact mem_rawIdList_of_children (topChildIds_sub hcc)
              · intro hnone
                exact ⟨hnone, by simpa using hraw⟩
    · simp only [Bool.not_eq_true] at hinc
      simp only [hinc, Bool.not_false, if_true] at hM
      rw [h0] at hM
      cases hM

/-- Every record added by a child loop carries an id from the forest, has
childIds drawn from the forest, and has a parent pointer that is none only
when the loop itself was entered with no parent. -/
theorem visitList_newrec (inc : Bool) (mtl : Int) : ∀ (l : List RawNode)
    (p : Option String) (d : Nat) (st : NodeMap × List String) (k : String) (rk : NodeRec),
    alookup st.1 k = none → alookup (visitList inc mtl l p d st).1 k = some rk →
    k ∈ rawIdsList l ∧ (∀ c ∈ rk.childIds, c ∈ rawIdsList l) ∧
      (rk.parentId = none → p = none ∧ ∃ m ∈ l, rawId m = some k)
  | [], _, _, st, k, rk => fun h0 hM => by
    rw [visitList] at hM
    rw [h0] at hM
    cases hM
  | c :: rest, p, d, st, k, rk => fun h0 hM => by
    rw [visitList] at hM
    rcases h1 : alookup (visit inc mtl c p d st).1 k with _ | rk0
    · rcases visitList_newrec inc mtl rest p d _ k rk h1 hM with ⟨hk, hc, hp⟩
      refine ⟨by simpa only [rawIdsList] using List.mem_append_right _ hk,
        fun c2 hc2 => by
          simpa only [rawIdsList] using List.mem_append_right _ (hc c2 hc2), ?_⟩
      intro hnone
      rcases hp hnone with ⟨hpn, m, hm, hr⟩
      exact ⟨hpn, m, List.mem_cons_of_mem c hm, hr⟩
    · have hkeep := visitList_keeps inc mtl rest p d _ k rk0 h1
      rw [hM] at hkeep
      cases hkeep
      rcases visit_newrec inc mtl c p d st k rk h0 h1 with ⟨hk, hc, hp⟩
      refine ⟨by simpa only [rawIdsList] using List.mem_append_left _ hk,
        fun c2 hc2 => by
          simpa only [rawIdsList] using List.mem_append_left _ (hc c2 hc2), ?_⟩
      intro hnone
      rcases hp hnone with ⟨hpn, hr⟩
      exact ⟨hpn, c, List.mem_cons_self c rest, hr⟩
end

/-- The child-link consistency of a node map: whenever a stored record lists c
among its childIds and c has a stored record, that record's parentId points
back at the listing record. -/
def LinkAll (M : NodeMap) : Prop :=
  ∀ pk rp c rc, alookup M pk = some rp → c ∈ rp.childIds → alookup M c = some rc →
    rc.parentId = some pk

mutual
/-- Visiting a subtree whose ids are fresh, duplicate-free and correctly
anticipated by the existing childIds links preserves child-link consistency. -/
theorem visit_link (inc : Bool) (mtl : Int) : ∀ (n : RawNode) (p : Option String)
    (d : Nat) (st : NodeMap × List String),
    (∀ k, ahas st.1 k = true → k ∉ rawIdList n) →
    (rawIdList n).Nodup →
    (∀ pk rp c, alookup st.1 pk = some rp → c ∈ rp.childIds → c ∈ rawIdList n →
      rawId n = some c ∧ p = some pk) →
    LinkAll st.1 → LinkAll (visit inc mtl n p d st).1
  | .node fields cs, p, d, st => fun hdisj hnd hpar hL => by
    rw [visit]
    by_cases hinc : shouldIncludeNode inc (.node fields cs) = true
    · simp only [hinc, Bool.not_true, Bool.false_eq_true, if_false]
      rcases hraw : rawId (.node fields cs) with _ | nodeId
      · simp only [hraw]
        exact hL
      · simp only [hraw]
        by_cases hdup : ahas st.1 nodeId = true
        · simp only [hdup, if_true]
          exact hL
        · simp only [Bool.not_eq_true] at hdup
          simp only [hdup, Bool.false_eq_true, if_false]
          have hnid_not_cs : nodeId ∉ rawIdsList cs := by
            have h2 : (rawIdList (.node fields cs)).Nodup := hnd
            rw [rawIdList, hraw] at h2
            exact (List.nodup_cons.mp h2).1
          have hstep : LinkAll (st.1 ++ [(nodeId,
              ({ id := nodeId
                 name := ((RawNode.node fields cs).getD "name" (J.str "")).pyStr
                 type := ((RawNode.node fields cs).getD "type" (J.str "")).pyStr
                 parentId := p
                 depth := d
                 childIds := topChildIds inc (.node fields cs)
                 facts := nodeFacts (.node fields cs) mtl } : NodeRec))]) := by
            intro pk rp c rc hp hc hcl
            rcases alookup_append_single_cases hp with hpOld | ⟨hpNone, rfl, rfl⟩
            · rcases alookup_append_single_cases hcl with hcOld | ⟨hcNone, rfl, rfl⟩
              · exact hL pk rp c rc hpOld hc hcOld
              · rcases hpar pk rp c hpOld hc (rawId_mem_rawIdList hraw) with ⟨_, hp2⟩
                exact hp2
            · have hcs : c ∈ rawIdsList cs := topChildIds_sub hc
              rcases alookup_append_single_cases hcl with hcOld | ⟨hcNone, rfl, rfl⟩
              · exact absurd (mem_rawIdList_of_children hcs)
                  (hdisj c (by simp [ahas, hcOld]))
              · exact absurd hcs hnid_not_cs
          refine visitList_link inc mtl cs (some nodeId) (d + 1) _ ?_ ?_ ?_ hstep
          · intro k hk
            rcases ahas_append_single_cases hk with h2 | rfl
            · intro hmem
              exact hdisj k h2 (mem_rawIdList_of_children hmem)
            · exact hnid_not_cs
          · have h2 : (rawIdList (.node fields cs)).Nodup := hnd
            rw [rawIdList, hraw] at h2
            exact (List.nodup_cons.mp h2).2
          · intro pk rp c hp hc hcs
            rcases alookup_append_single_cases hp with hpOld | ⟨hpNone, rfl, rfl⟩
            · rcases hpar pk rp c hpOld hc (mem_rawIdList_of_children hcs) with ⟨hr2, _⟩
              rw [hraw] at hr2
              cases hr2
              exact absurd hcs hnid_not_cs
            · rcases mem_topChildIds.mp hc with ⟨m, hm, _, hr2⟩
              exact ⟨⟨m, hm, hr2⟩, rfl⟩
    · simp only [Bool.not_eq_true] at hinc
      simp only [hinc, Bool.not_false, if_true]
      exact hL

/-- Looping over a duplicate-free forest of fresh subtrees preserves
child-link consistency. -/
theorem visitList_link (inc : Bool) (mtl : Int) : ∀ (l : List RawNode)
    (p : Option String) (d : Nat) (st : NodeMap × List String),
    (∀ k, ahas st.1 k = true → k ∉ rawIdsList l) →
    (rawIdsList l).Nodup →
    (∀ pk rp c, alookup st.1 pk = some rp → c ∈ rp.childIds → c ∈ rawIdsList l →
      (∃ m ∈ l, rawId m = some c) ∧ p = some pk) →
    LinkAll st.1 → LinkAll (visitList inc mtl l p d st).1
  | [], _, _, st => fun _ _ _ hL => hL
  | c :: rest, p, d, st => fun hdisj hnd hpar hL => by
    rw [visitList]
    have hsplit : (rawIdList c ++ rawIdsList rest).Nodup := by
      simpa only [rawIdsList] using hnd
    have hdisj2 := (List.nodup_append.mp hsplit).2.2
    have hL2 : LinkAll (visit inc mtl c p d st).1 := by
      refine visit_link inc mtl c p d st ?_ (List.nodup_append.mp hsplit).1 ?_ hL
      · intro k hk hmem
        exact hdisj k hk (by simpa only [rawIdsList] using List.mem_append_left _ hmem)
      · intro pk rp c2 hp hc hcs
        rcases hpar pk rp c2 hp hc
          (by simpa only [rawIdsList] using List.mem_append_left _ hcs) with ⟨⟨m, hm, hr⟩, hp2⟩
        rcases List.mem_cons.mp hm with rfl | hm2
        · exact ⟨hr, hp2⟩
        · exact absurd (mem_rawIdsList_of hm2 (rawId_mem_rawIdList hr))
            (fun hx => hdisj2 hcs hx)
    refine visitList_link inc mtl rest p d _ ?_ (List.nodup_append.mp hsplit).2.1 ?_ hL2
    · intro k hk hmem
      rcases visit_newkeys inc mtl c p d st k hk with h2 | h2
      · exact hdisj k h2 (by simpa only [rawIdsList] using List.mem_append_right _ hmem)
      · exact hdisj2 h2 hmem
    · intro pk rp c2 hp hc hcs
      rcases h0 : alookup st.1 pk with _ | rp0
      · rcases visit_newrec inc mtl c p d st pk rp h0 hp with ⟨_, hcsub, _⟩
        exact absurd hcs (fun hx => hdisj2 (hcsub c2 hc) hx)
      · have hkeep := visit_keeps inc mtl c p d st pk rp0 h0
        rw [hp] at hkeep
        cases hkeep
        rcases hpar pk rp c2 h0 hc
          (by simpa only [rawIdsList] using List.mem_append_right _ hcs) with ⟨⟨m, hm, hr⟩, hp2⟩
        rcases List.mem_cons.mp hm with rfl | hm2
        · exact absurd hcs (fun hx => hdisj2 (rawId_mem_rawIdList hr) hx)
        · exact ⟨⟨m, hm2, hr⟩, hp2⟩
end

/-- Depth consistency of a node map: every stored record's parentId, when
present, names a stored record whose depth is exactly one lower. -/
def DepthInv (M : NodeMap) : Prop :=
  ∀ k rk pk, alookup M k = some rk → rk.parentId = some pk →
    ∃ rp, alookup M pk = some rp ∧ rp.depth + 1 = rk.depth

mutual
/-- Visiting a subtree below an already-stored parent record of depth d - 1
preserves depth consistency (no uniqueness of ids required). -/
theorem visit_depth (inc : Bool) (mtl : Int) : ∀ (n : RawNode) (p : Option String)
    (d : Nat) (st : NodeMap × List String),
    (∀ pk, p = some pk → ∃ rp, alookup st.1 pk = some rp ∧ rp.depth + 1 = d) →
    DepthInv st.1 → DepthInv (visit inc mtl n p d st).1
  | .node fields cs, p, d, st => fun hdep hD => by
    rw [visit]
    by_cases hinc : shouldIncludeNode inc (.node fields cs) = true
    · simp only [hinc, Bool.not_true, Bool.false_eq_true, if_false]
      rcases hraw : rawId (.node fields cs) with _ | nodeId
      · simp only [hraw]
        exact hD
      · simp only [hraw]
        by_cases hdup : ahas st.1 nodeId = true
        · simp only [hdup, if_true]
          exact hD
        · simp only [Bool.not_eq_true] at hdup
          simp only [hdup, Bool.false_eq_true, if_false]
          have hD2 : DepthInv (st.1 ++ [(nodeId,
              ({ id := nodeId
                 name := ((RawNode.node fields cs).getD "name" (J.str "")).pyStr
                 type := ((RawNode.node fields cs).getD "type" (J.str "")).pyStr
                 parentId := p
                 depth := d
                 childIds := topChildIds inc (.node fields cs)
                 facts := nodeFacts (.node fields cs) mtl } : NodeRec))]) := by
            intro k rk pk hk hpk
            rcases alookup_append_single_cases hk with hOld | ⟨hNone, rfl, rfl⟩
            · rcases hD k rk pk hOld hpk with ⟨rp, hrp, hd2⟩
              exact ⟨rp, alookup_append_some _ hrp, hd2⟩
            · rcases hdep pk hpk with ⟨rp, hrp, hd2⟩
              exact ⟨rp, alookup_append_some _ hrp, hd2⟩
          refine visitList_depth inc mtl cs (some nodeId) (d + 1) _ ?_ hD2
          intro pk hpk
          cases hpk
          exact ⟨_, alookup_append_single_self hdup, rfl⟩
    · simp only [Bool.not_eq_true] at hinc
      simp only [hinc, Bool.not_false, if_true]
      exact hD

/-- Looping over children below an already-stored parent record preserves
depth consistency. -/
theorem visitList_depth (inc : Bool) (mtl : Int) : ∀ (l : List RawNode)
    (p : Option String) (d : Nat) (st : NodeMap × List String),
    (∀ pk, p = some pk → ∃ rp, alookup st.1 pk = some rp ∧ rp.depth + 1 = d) →
    DepthInv st.1 → DepthInv (visitList inc mtl l p d st).1
  | [], _, _, st => fun _ hD => hD
  | c :: rest, p, d, st => fun hdep hD => by
    rw [visitList]
    refine visitList_depth inc mtl rest p d _ ?_
      (visit_depth inc mtl c p d st hdep hD)
    intro pk hpk
    rcases hdep pk hpk with ⟨rp, hrp, hd2⟩
    exact ⟨rp, visit_keeps inc mtl c p d st pk rp hrp, hd2⟩
end

/-- Converse child-link property: every stored record's parentId, when
present, names a stored record that lists the child in its childIds. -/
def ChildLink (M : NodeMap) : Prop :=
  ∀ k rk pk, alookup M k = some rk → rk.parentId = some pk →
    ∃ rp, alookup M pk = some rp ∧ k ∈ rp.childIds

mutual
/-- Visiting a subtree below a stored parent whose childIds anticipate the
subtree's included top id preserves the converse child-link property (no
uniqueness of ids required). -/
theorem visit_childlink (inc : Bool) (mtl : Int) : ∀ (n : RawNode) (p : Option String)
    (d : Nat) (st : NodeMap × List String),
    (∀ pk, p = some pk → ∃ rp, alookup st.1 pk = some rp ∧
      (∀ k, shouldIncludeNode inc n = true → rawId n = some k → k ∈ rp.childIds)) →
    ChildLink st.1 → ChildLink (visit inc mtl n p d st).1
  | .node fields cs, p, d, st => fun hpar2 hC => by
    rw [visit]
    by_cases hinc : shouldIncludeNode inc (.node fields cs) = true
    · simp only [hinc, Bool.not_true, Bool.false_eq_true, if_false]
      rcases hraw : rawId (.node fields cs) with _ | nodeId
      · simp only [hraw]
        exact hC
      · simp only [hraw]
        by_cases hdup : ahas st.1 nodeId = true
        · simp only [hdup, if_true]
          exact hC
        · simp only [Bool.not_eq_true] at hdup
          simp only [hdup, Bool.false_eq_true, if_false]
          have hC2 : ChildLink (st.1 ++ [(nodeId,
              ({ id := nodeId
                 name := ((RawNode.node fields cs).getD "name" (J.str "")).pyStr
                 type := ((RawNode.node fields cs).getD "type" (J.str "")).pyStr
                 parentId := p
                 depth := d
                 childIds := topChildIds inc (.node fields cs)
                 facts := nodeFacts (.node fields cs) mtl } : NodeRec))]) := by
            intro k rk pk hk hpk
            rcases alookup_append_single_cases hk with hOld | ⟨hNone, rfl, rfl⟩
            · rcases hC k rk pk hOld hpk with ⟨rp, hrp, hin⟩
              exact ⟨rp, alookup_append_some _ hrp, hin⟩
            · rcases hpar2 pk hpk with ⟨rp, hrp, hmemf⟩
              exact ⟨rp, alookup_append_some _ hrp, hmemf k hinc hraw⟩
          refine visitList_childlink inc mtl cs (some nodeId) (d + 1) _ ?_ hC2
          intro pk hpk
          cases hpk
          refine ⟨_, alookup_append_single_self hdup, ?_⟩
          intro m hm k hi hr
          exact mem_topChildIds.mpr ⟨m, hm, hi, hr⟩
    · simp only [Bool.not_eq_true] at hinc
      simp only [hinc, Bool.not_false, if_true]
      exact hC

/-- Looping over children below a stored parent whose childIds anticipate
every included child id preserves the converse child-link property. -/
theorem visitList_childlink (inc : Bool) (mtl : Int) : ∀ (l : List RawNode)
    (p : Option String) (d : Nat) (st : NodeMap × List String),
    (∀ pk, p = some pk → ∃ rp, alookup st.1 pk = some rp ∧
      (∀ m ∈ l, ∀ k, shouldIncludeNode inc m = true → rawId m = some k →
        k ∈ rp.childIds)) →
    ChildLink st.1 → ChildLink (visitList inc mtl l p d st).1
  | [], _, _, st => fun _ hC => hC
  | c :: rest, p, d, st => fun hpar2 hC => by
    rw [visitList]
    have hC2 : ChildLink (visit inc mtl c p d st).1 := by
      refine visit_childlink inc mtl c p d st ?_ hC
      intro pk hpk
      rcases hpar2 pk hpk with ⟨rp, hrp, hmemf⟩
      exact ⟨rp, hrp, fun k hi hr => hmemf c (List.mem_cons_self c rest) k hi hr⟩
    refine visitList_childlink inc mtl rest p d _ ?_ hC2
    intro pk hpk
    rcases hpar2 pk hpk with ⟨rp, hrp, hmemf⟩
    exact ⟨rp, visit_keeps inc mtl c p d st pk rp hrp,
      fun m hm k hi hr => hmemf m (List.mem_cons_of_mem c hm) k hi hr⟩
end

theorem bfsLoop_nil (nodes : NodeMap) (seen order : List String) :
    bfsLoop nodes [] seen order = order := by
  rw [bfsLoop.eq_def]

theorem bfsLoop_seen {nodes : NodeMap} {nid : String} {rest seen order : List String}
    (h : nid ∈ seen) :
    bfsLoop nodes (nid :: rest) seen order = bfsLoop nodes rest seen order := by
  rw [bfsLoop.eq_def]
  simp only [if_pos h]

theorem bfsLoop_not_seen_none {nodes : NodeMap} {nid : String}
    {rest seen order : List String} (h1 : nid ∉ seen) (h2 : alookup nodes nid = none) :
    bfsLoop nodes (nid :: rest) seen order = bfsLoop nodes rest (nid :: seen) order := by
  rw [bfsLoop.eq_def]
  simp only [if_neg h1]
  split
  · rfl
  · rename_i r heq
    rw [h2] at heq
    cases heq

theorem bfsLoop_not_seen_some {nodes : NodeMap} {nid : String}
    {rest seen order : List String} {r : NodeRec}
    (h1 : nid ∉ seen) (h2 : alookup nodes nid = some r) :
    bfsLoop nodes (nid :: rest) seen order =
      bfsLoop nodes (rest ++ r.childIds) (nid :: seen) (order ++ [nid]) := by
  rw [bfsLoop.eq_def]
  simp only [if_neg h1]
  split
  · rename_i heq
    rw [h2] at heq
    cases heq
  · rename_i r2 heq
    rw [h2] at heq
    cases heq
    rfl

theorem bfsLoop_order_sub (nodes : NodeMap) (q seen order : List String) :
    ∀ y ∈ order, y ∈ bfsLoop nodes q seen order := by
  induction q, seen, order using bfsLoop.induct nodes with
  | case1 seen order =>
    intro y hy
    rw [bfsLoop_nil]
    exact hy
  | case2 nid rest seen order hseen ih =>
    intro y hy
    rw [bfsLoop_seen hseen]
    exact ih y hy
  | case3 nid rest seen order hseen heq ih =>
    intro y hy
    rw [bfsLoop_not_seen_none hseen heq]
    exact ih y hy
  | case4 nid rest seen order hseen r heq ih =>
    intro y hy
    rw [bfsLoop_not_seen_some hseen heq]
    exact ih y (List.mem_append_left _ hy)

/-- The BFS loop appends a node only after its parent (per the childIds
links) is already in the order, given link consistency of the map. -/
theorem bfsLoop_parent_before (nodes : NodeMap) (rootId : String)
    (H1 : LinkAll nodes)
    (H2 : ∀ rr, alookup nodes rootId = some rr → rr.parentId = none) :
    ∀ (q seen order : List String),
    (∀ c ∈ q, c = rootId ∨
      ∃ pc rp, alookup nodes pc = some rp ∧ c ∈ rp.childIds ∧ pc ∈ order) →
    (∀ k rk pk, k ∈ order → alookup nodes k = some rk → rk.parentId = some pk →
      ∃ l1 l2, order = l1 ++ pk :: l2 ∧ k ∈ l2) →
    ∀ k rk pk, k ∈ bfsLoop nodes q seen order → alookup nodes k = some rk →
      rk.parentId = some pk →
      ∃ l1 l2, bfsLoop nodes q seen order = l1 ++ pk :: l2 ∧ k ∈ l2 := by
  intro q seen order
  induction q, seen, order using bfsLoop.induct nodes with
  | case1 seen order =>
    intro hInv1 hInv2 k rk pk hk hlk hpk
    rw [bfsLoop_nil] at hk ⊢
    exact hInv2 k rk pk hk hlk hpk
  | case2 seen order nid rest hseen ih =>
    intro hInv1 hInv2
    rw [bfsLoop_seen hseen]
    exact ih (fun c hc => hInv1 c (List.mem_cons_of_mem _ hc)) hInv2
  | case3 seen order nid rest hseen heq ih =>
    intro hInv1 hInv2
    rw [bfsLoop_not_seen_none hseen heq]
    exact ih (fun c hc => hInv1 c (List.mem_cons_of_mem _ hc)) hInv2
  | case4 seen order nid rest hseen r heq ih =>
    intro hInv1 hInv2
    rw [bfsLoop_not_seen_some hseen heq]
    refine ih ?_ ?_
    · intro c hc
      rcases List.mem_append.mp hc with hc1 | hc2
      · rcases hInv1 c (List.mem_cons_of_mem _ hc1) with h | ⟨pc, rp, h1, h2, h3⟩
        · exact Or.inl h
        · exact Or.inr ⟨pc, rp, h1, h2, List.mem_append_left _ h3⟩
      · exact Or.inr ⟨nid, r, heq, hc2, List.mem_append_right _ (by simp)⟩
    · intro k rk pk hk hlk hpk
      rcases List.mem_append.mp hk with hkOld | hkNew
      · rcases hInv2 k rk pk hkOld hlk hpk with ⟨l1, l2, hdec, hmem⟩
        exact ⟨l1, l2 ++ [nid], by rw [hdec]; simp, List.mem_append_left _ hmem⟩
      · have hknid : k = nid := by simpa using hkNew
        subst hknid
        rw [heq] at hlk
        cases hlk
        rcases hInv1 k (List.mem_cons_self _ _) with hroot | ⟨pc, rp, h1, h2, h3⟩
        · subst hroot
          rw [H2 _ heq] at hpk
          cases hpk
        · have hpar := H1 pc rp k _ h1 h2 heq
          rw [hpar] at hpk
          cases hpk
          rcases List.append_of_mem h3 with ⟨s, t, hdec⟩
          refine ⟨s, t ++ [k], ?_, List.mem_append_right _ (by simp)⟩
          rw [hdec]
          simp

/-- Whenever the BFS loop outputs a node, it also outputs every child listed
in that node's record that has a record of its own. -/
theorem bfsLoop_closure (nodes : NodeMap) :
    ∀ (q seen order : List String),
    (∀ x ∈ seen, ahas nodes x = true → x ∈ order) →
    (∀ x rx, x ∈ order → alookup nodes x = some rx →
      ∀ c ∈ rx.childIds, c ∈ seen ∨ c ∈ q) →
    ∀ p rp k, p ∈ bfsLoop nodes q seen order → alookup nodes p = some rp →
      k ∈ rp.childIds → ahas nodes k = true → k ∈ bfsLoop nodes q seen order := by
  intro q seen order
  induction q, seen, order using bfsLoop.induct nodes with
  | case1 seen order =>
    intro hSeen hOC p rp k hp hrp hk hhask
    rw [bfsLoop_nil] at hp ⊢
    rcases hOC p rp hp hrp k hk with h | h
    · exact hSeen k h hhask
    · cases h
  | case2 seen order nid rest hseen ih =>
    intro hSeen hOC
    rw [bfsLoop_seen hseen]
    refine ih hSeen ?_
    intro x rx hx hrx c hc
    rcases hOC x rx hx hrx c hc with h | h
    · exact Or.inl h
    · rcases List.mem_cons.mp h with rfl | h2
      · exact Or.inl hseen
      · exact Or.inr h2
  | case3 seen order nid rest hseen heq ih =>
    intro hSeen hOC
    rw [bfsLoop_not_seen_none hseen heq]
    refine ih ?_ ?_
    · intro x hx hhask
      rcases List.mem_cons.mp hx with rfl | h2
      · rw [ahas, heq] at hhask
        cases hhask
      · exact hSeen x h2 hhask
    · intro x rx hx hrx c hc
      rcases hOC x rx hx hrx c hc with h | h
      · exact Or.inl (List.mem_cons_of_mem _ h)
      · rcases List.mem_cons.mp h with rfl | h2
        · exact Or.inl (List.mem_cons_self _ _)
        · exact Or.inr h2
  | case4 seen order nid rest hseen r heq ih =>
    intro hSeen hOC
    rw [bfsLoop_not_seen_some hseen heq]
    refine ih ?_ ?_
    · intro x hx hhask
      rcases List.mem_cons.mp hx with rfl | h2
      · exact List.mem_append_right _ (by simp)
      · exact List.mem_append_left _ (hSeen x h2 hhask)
    · intro x rx hx hrx c hc
      rcases List.mem_append.mp hx with hxOld | hxNew
      · rcases hOC x rx hxOld hrx c hc with h | h
        · exact Or.inl (List.mem_cons_of_mem _ h)
        · rcases List.mem_cons.mp h with rfl | h2
          · exact Or.inl (List.mem_cons_self _ _)
          · exact Or.inr (List.mem_append_left _ h2)
      · have hxnid : x = nid := by simpa using hxNew
        subst hxnid
        rw [heq] at hrx
        cases hrx
        exact Or.inr (List.mem_append_right _ hc)

/-- The root id is in the BFS order whenever it carries a record. -/
theorem root_mem_bfsOrder {nodes : NodeMap} {rootId : String} {rr : NodeRec}
    (h : alookup nodes rootId = some rr) : rootId ∈ bfsOrder nodes rootId := by
  unfold bfsOrder
  rw [bfsLoop_not_seen_some (by simp) h]
  exact bfsLoop_order_sub nodes _ _ _ rootId (by simp)

/-- Every record in a depth- and child-link-consistent map whose only
orphan is the root reaches the BFS order. -/
theorem bfs_complete (nodes : NodeMap) (rootId : String)
    (HC : ChildLink nodes) (HD : DepthInv nodes)
    (H0 : ∀ k rk, alookup nodes k = some rk → rk.parentId = none → k = rootId) :
    ∀ (n : Nat) (k : String) (rk : NodeRec), alookup nodes k = some rk →
      rk.depth ≤ n → k ∈ bfsOrder nodes rootId := by
  intro n
  induction n with
  | zero =>
    intro k rk hk hd
    rcases hp : rk.parentId with _ | pk
    · have h2 := H0 k rk hk hp
      subst h2
      exact root_mem_bfsOrder hk
    · rcases HD k rk pk hk hp with ⟨rp, hrp, hdep⟩
      omega
  | succ n ih =>
    intro k rk hk hd
    rcases hp : rk.parentId with _ | pk
    · have h2 := H0 k rk hk hp
      subst h2
      exact root_mem_bfsOrder hk
    · rcases HC k rk pk hk hp with ⟨rp, hrp, hin⟩
      rcases HD k rk pk hk hp with ⟨rp2, hrp2, hdep⟩
      rw [hrp] at hrp2
      cases hrp2
      have hpk_mem : pk ∈ bfsOrder nodes rootId := ih pk rp hrp (by omega)
      unfold bfsOrder at hpk_mem ⊢
      exact bfsLoop_closure nodes [rootId] [] [] (by simp) (by simp) pk rp k
        hpk_mem hrp hin (by simp [ahas, hk])

theorem indexTree_inv {root : RawNode} {inc : Bool} {mtl : Int} {rootId : String}
    {m : NodeMap} {w : List String}
    (h : indexTree root inc mtl = .ok (rootId, (m, w))) :
    root.get "id" = some (J.str rootId) ∧ rootId ≠ "" ∧
      m = (visit inc mtl root none 0 ([], [])).1 := by
  unfold indexTree at h
  rcases hg : root.get "id" with _ | v
  · simp only [hg] at h
    exact Except.noConfusion h
  · rcases v with _ | b | q | s | es | kvs
    · simp only [hg] at h
      exact Except.noConfusion h
    · simp only [hg] at h
      exact Except.noConfusion h
    · simp only [hg] at h
      exact Except.noConfusion h
    · simp only [hg] at h
      by_cases hs : s = ""
      · rw [if_pos hs] at h
        exact Except.noConfusion h
      · rw [if_neg hs] at h
        have h2 := Except.ok.inj h
        have hsr : s = rootId := congrArg Prod.fst h2
        subst hsr
        have h3 : visit inc mtl root none 0 ([], []) = (m, w) := congrArg Prod.snd h2
        exact ⟨rfl, hs, by rw [h3]⟩
    · simp only [hg] at h
      exact Except.noConfusion h
    · simp only [hg] at h
      exact Except.noConfusion h

/-- The record the root id maps to after indexing carries no parent. -/
theorem visit_root_parent_none {inc : Bool} {mtl : Int} {root : RawNode} {rootId : String}
    (hraw : rawId root = some rootId) :
    ∀ rr, alookup (visit inc mtl root none 0 ([], [])).1 rootId = some rr →
      rr.parentId = none := by
  rcases root with ⟨fields, cs⟩
  intro rr h
  rw [visit] at h
  by_cases hinc : shouldIncludeNode inc (.node fields cs) = true
  · simp only [hinc, Bool.not_true, Bool.false_eq_true, if_false] at h
    simp only [hraw] at h
    have hempty : ahas (([], []) : NodeMap × List String).1 rootId = true → False := by
      intro hx
      simp [ahas, alookup] at hx
    rw [if_neg hempty] at h
    have hkeep := visitList_keeps inc mtl cs (some rootId) (0 + 1)
      ((([], []) : NodeMap × List String).1 ++ [(rootId,
        ({ id := rootId
           name := ((RawNode.node fields cs).getD "name" (J.str "")).pyStr
           type := ((RawNode.node fields cs).getD "type" (J.str "")).pyStr
           parentId := none
           depth := 0
           childIds := topChildIds inc (.node fields cs)
           facts := nodeFacts (.node fields cs) mtl } : NodeRec))], []) rootId
      ({ id := rootId
         name := ((RawNode.node fields cs).getD "name" (J.str "")).pyStr
         type := ((RawNode.node fields cs).getD "type" (J.str "")).pyStr
         parentId := none
         depth := 0
         childIds := topChildIds inc (.node fields cs)
         facts := nodeFacts (.node fields cs) mtl } : NodeRec)
      (alookup_append_single_self rfl)
    rw [h] at hkeep
    cases hkeep
    rfl
  · simp only [Bool.not_eq_true] at hinc
    simp only [hinc, Bool.not_false, if_true] at h
    simp [alookup] at h

theorem rawId_of_get {fields : List (String × J)} {cs : List RawNode} {s : String}
    (hget : (RawNode.node fields cs).get "id" = some (J.str s)) (hne : s ≠ "") :
    rawId (.node fields cs) = some s := by
  unfold rawId
  simp only [hget]
  rw [if_neg hne]

/-- C2: for every raw tree the indexer accepts, every stored record's
parentId names a stored record whose depth is exactly one lower (so strictly
lower), and every stored record's id appears in the breadth-first order;
when moreover the raw tree contains no duplicate ids, every non-root record
appears strictly after its parent in the breadth-first order.  (Without the
duplicate-freedom hypothesis the order clause fails; see the accompanying
counterexample.) -/
theorem c2_indexed_parent_depth_and_bfs_order (root : RawNode) (inc : Bool) (mtl : Int)
    (rootId : String) (m : NodeMap) (w : List String)
    (hidx : indexTree root inc mtl = .ok (rootId, (m, w))) :
    (∀ k rk pk, alookup m k = some rk → rk.parentId = some pk →
      ∃ rp, alookup m pk = some rp ∧ rp.depth + 1 = rk.depth) ∧
    (∀ k rk, alookup m k = some rk → k ∈ bfsOrder m rootId) ∧
    ((rawIdList root).Nodup →
      ∀ k rk pk, alookup m k = some rk → rk.parentId = some pk →
        ∃ l1 l2, bfsOrder m rootId = l1 ++ pk :: l2 ∧ k ∈ l2) := by
  rcases indexTree_inv hidx with ⟨hget, hne, hm⟩
  have hraw : rawId root = some rootId := by
    rcases root with ⟨fields, cs⟩
    exact rawId_of_get hget hne
  subst hm
  have HD : DepthInv (visit inc mtl root none 0 ([], [])).1 := by
    refine visit_depth inc mtl root none 0 ([], []) ?_ ?_
    · intro pk h
      cases h
    · intro k rk pk h
      simp [alookup] at h
  have HC : ChildLink (visit inc mtl root none 0 ([], [])).1 := by
    refine visit_childlink inc mtl root none 0 ([], []) ?_ ?_
    · intro pk h
      cases h
    · intro k rk pk h
      simp [alookup] at h
  have H0 : ∀ k rk, alookup (visit inc mtl root none 0 ([], [])).1 k = some rk →
      rk.parentId = none → k = rootId := by
    intro k rk hk hp
    rcases visit_newrec inc mtl root none 0 ([], []) k rk rfl hk with ⟨_, _, hpc⟩
    rcases hpc hp with ⟨_, hr2⟩
    rw [hraw] at hr2
    exact (Option.some.inj hr2).symm
  have hcomp : ∀ k rk, alookup (visit inc mtl root none 0 ([], [])).1 k = some rk →
      k ∈ bfsOrder (visit inc mtl root none 0 ([], [])).1 rootId := by
    intro k rk hk
    exact bfs_complete _ rootId HC HD H0 rk.depth k rk hk le_rfl
  refine ⟨HD, hcomp, ?_⟩
  intro hnd k rk pk hk hp
  have HL : LinkAll (visit inc mtl root none 0 ([], [])).1 := by
    refine visit_link inc mtl root none 0 ([], []) ?_ hnd ?_ ?_
    · intro k2 h2
      simp [ahas, alookup] at h2
    · intro pk2 rp c h2
      simp [alookup] at h2
    · intro a b c d h2
      simp [alookup] at h2
  have H2 := @visit_root_parent_none inc mtl root rootId hraw
  have hmem := hcomp k rk hk
  unfold bfsOrder at hmem ⊢
  refine bfsLoop_parent_before _ rootId HL H2 [rootId] [] [] ?_ ?_ k rk pk hmem hk hp
  · intro c hc
    exact Or.inl (by simpa using hc)
  · intro k1 rk1 pk1 h1
    simp at h1

theorem bfsLoop_step_of_childIds {nodes : NodeMap} {nid : String}
    {rest seen order cids : List String} (h1 : nid ∉ seen)
    (h2 : (alookup nodes nid).map NodeRec.childIds = some cids) :
    bfsLoop nodes (nid :: rest) seen order =
      bfsLoop nodes (rest ++ cids) (nid :: seen) (order ++ [nid]) := by
  rcases hl : alookup nodes nid with _ | r
  · rw [hl] at h2
    cases h2
  · rw [hl] at h2
    have h3 : r.childIds = cids := Option.some.inj h2
    rw [bfsLoop_not_seen_some h1 hl, h3]

/-- A tree containing the id "d" twice: once under P (deep) and once under Q
(shallow); the first-visited occurrence, under P, wins during indexing. -/
def c2Tree : RawNode :=
  .node [("id", J.str "R"), ("name", J.str "R"), ("type", J.str "FRAME")] [
    .node [("id", J.str "S"), ("name", J.str "S"), ("type", J.str "FRAME")] [
      .node [("id", J.str "A"), ("name", J.str "A"), ("type", J.str "FRAME")] [
        .node [("id", J.str "P"), ("name", J.str "P"), ("type", J.str "FRAME")] [
          .node [("id", J.str "d"), ("name", J.str "d"), ("type", J.str "TEXT")] []]]],
    .node [("id", J.str "Q"), ("name", J.str "Q"), ("type", J.str "FRAME")] [
      .node [("id", J.str "d"), ("name", J.str "d2"), ("type", J.str "TEXT")] []]]

/-- The node map indexing c2Tree produces. -/
def c2Nodes : NodeMap := (visit false (-1) c2Tree none 0 ([], [])).1

/-- C2 counterexample: with duplicate ids the indexer accepts the tree, the
record for "d" has parentId "P", but the breadth-first order places "d"
strictly before "P" (because Q's childIds entry for "d" enqueues it early),
so a non-root node does not appear strictly after its parent record. -/
theorem c2_counterexample_child_before_parent :
    indexTree c2Tree false (-1) =
      .ok ("R", (c2Nodes, (visit false (-1) c2Tree none 0 ([], [])).2)) ∧
    ((alookup c2Nodes "d").map NodeRec.parentId) = some (some "P") ∧
    bfsOrder c2Nodes "R" = ["R", "S", "Q", "A", "d", "P"] ∧
    ¬ (∃ l1 l2, bfsOrder c2Nodes "R" = l1 ++ "P" :: l2 ∧ "d" ∈ l2) := by
  have horder : bfsOrder c2Nodes "R" = ["R", "S", "Q", "A", "d", "P"] := by
    unfold bfsOrder
    rw [bfsLoop_step_of_childIds (by simp)
      (show (alookup c2Nodes "R").map NodeRec.childIds = some ["S", "Q"] by rfl)]
    simp only [List.nil_append, List.cons_append]
    rw [bfsLoop_step_of_childIds (by simp)
      (show (alookup c2Nodes "S").map NodeRec.childIds = some ["A"] by rfl)]
    simp only [List.nil_append, List.cons_append]
    rw [bfsLoop_step_of_childIds (by simp)
      (show (alookup c2Nodes "Q").map NodeRec.childIds = some ["d"] by rfl)]
    simp only [List.nil_append, List.cons_append]
    rw [bfsLoop_step_of_childIds (by simp)
      (show (alookup c2Nodes "A").map NodeRec.childIds = some ["P"] by rfl)]
    simp only [List.nil_append, List.cons_append]
    rw [bfsLoop_step_of_childIds (by simp)
      (show (alookup c2Nodes "d").map NodeRec.childIds = some [] by rfl)]
    simp only [List.nil_append, List.cons_append, List.append_nil]
    rw [bfsLoop_step_of_childIds (by simp)
      (show (alookup c2Nodes "P").map NodeRec.childIds = some ["d"] by rfl)]
    simp only [List.nil_append, List.cons_append]
    rw [bfsLoop_seen (by simp)]
    rw [bfsLoop_nil]
  refine ⟨rfl, rfl, horder, ?_⟩
  rintro ⟨l1, l2, hdec, hmem⟩
  rw [horder] at hdec
  rcases l1 with _ | ⟨a1, l1⟩
  · simp at hdec
  · simp only [List.cons_append, List.cons.injEq] at hdec
    rcases hdec with ⟨rfl, hdec⟩
    rcases l1 with _ | ⟨a2, l1⟩
    · simp at hdec
    · simp only [List.cons_append, List.cons.injEq] at hdec
      rcases hdec with ⟨rfl, hdec⟩
      rcases l1 with _ | ⟨a3, l1⟩
      · simp at hdec
      · simp only [List.cons_append, List.cons.injEq] at hdec
        rcases hdec with ⟨rfl, hdec⟩
        rcases l1 with _ | ⟨a4, l1⟩
        · simp at hdec
        · simp only [List.cons_append, List.cons.injEq] at hdec
          rcases hdec with ⟨rfl, hdec⟩
          rcases l1 with _ | ⟨a5, l1⟩
          · simp at hdec
          · simp only [List.cons_append, List.cons.injEq] at hdec
            rcases hdec with ⟨rfl, hdec⟩
            rcases l1 with _ | ⟨a6, l1⟩
            · simp only [List.nil_append, List.cons.injEq] at hdec
              rcases hdec with ⟨_, rfl⟩
              simp at hmem
            · simp only [List.cons_append, List.cons.injEq] at hdec
              rcases hdec with ⟨rfl, hdec⟩
              rcases l1 with _ | ⟨a7, l1⟩ <;> simp at hdec

/-- A two-node tree with unique ids for instantiating the C2 theorem. -/
def c2wTree : RawNode :=
  .node [("id", J.str "R"), ("name", J.str "R"), ("type", J.str "FRAME")] [
    .node [("id", J.str "C"), ("name", J.str "C"), ("type", J.str "TEXT")] []]

/-- C2 witness: on a duplicate-free two-node tree the child "C" appears
strictly after its parent "R" in the breadth-first order. -/
theorem c2_indexed_parent_depth_and_bfs_order_witness :
    ∃ l1 l2, bfsOrder (visit false (-1) c2wTree none 0 ([], [])).1 "R" =
      l1 ++ "R" :: l2 ∧ "C" ∈ l2 := by
  have h := c2_indexed_parent_depth_and_bfs_order c2wTree false (-1) "R"
    (visit false (-1) c2wTree none 0 ([], [])).1
    (visit false (-1) c2wTree none 0 ([], [])).2 rfl
  have hc : (alookup (visit false (-1) c2wTree none 0 ([], [])).1 "C").map
      NodeRec.parentId = some (some "R") := rfl
  rcases hC : alookup (visit false (-1) c2wTree none 0 ([], [])).1 "C" with _ | rC
  · rw [hC] at hc
    cases hc
  · rw [hC] at hc
    have hp : rC.parentId = some "R" := Option.some.inj hc
    exact h.2.2 (by decide) "C" rC "R" hC hp
